import Mathlib

/-! konfig: the secret resolution engine (package `koanfgcp`) and the configuration
set-up around it (package `konfig`).

A shallow embedding of `koanfgcp/validate_struct.go`,
`koanfgcp/koanf_secret_resolver.go` and `config.go`, followed by the properties
proved about it.

Modelling conventions.

* A Go `map[string]T` is an association list with distinct keys. The order of the
  list has no meaning of its own: Go leaves the iteration order of a map open, and
  where the order of a loop over a map (or the completion order of the workers of
  the pool) can be observed, the loop runs over `Schedule.run` of the list, for an
  arbitrary `Schedule` (`RangeOrder` for a map with other values).
* A call that may return an `error` or panic returns a `Result`.
* `reflect.Value` is the tree `Value`: the code only ever asks a value for its
  kind, its fields, its pointee and whether it can be set.
-/

namespace Konfig

/-! ## Strings -/

/-- Go `strings.Join(elems, sep)`. -/
def Join : List String → String → String
  | [], _ => ""
  | [a], _ => a
  | a :: b :: rest, sep => a ++ sep ++ Join (b :: rest) sep

/-- Go `strings.Contains(s, sub)`: `sub` occurs in `s` as a contiguous run. -/
def Contains (s sub : String) : Prop := sub.data <:+: s.data

instance (s sub : String) : Decidable (Contains s sub) := by
  unfold Contains; infer_instance

/-! ## Go maps with string keys -/

/-- Go `map[string]β`. -/
abbrev GoMap (β : Type) := List (String × β)

namespace GoMap

/-- Go `v, ok := m[k]`. -/
def get {β : Type} : GoMap β → String → Option β
  | [], _ => none
  | (k', v) :: rest, k => if k' = k then some v else get rest k

/-- Go `m[k] = v`. -/
def set {β : Type} : GoMap β → String → β → GoMap β
  | [], k, v => [(k, v)]
  | (k', v') :: rest, k, v => if k' = k then (k, v) :: rest else (k', v') :: set rest k v

/-- Go `delete(m, k)`. -/
def delete {β : Type} : GoMap β → String → GoMap β
  | [], _ => []
  | (k', v') :: rest, k => if k' = k then delete rest k else (k', v') :: delete rest k

/-- The keys of a map. -/
def keys {β : Type} (m : GoMap β) : List String := m.map Prod.fst

end GoMap

/-- The order in which the entries of a map are visited by a `range` loop, or in
which the workers of a pool finish: any rearrangement of the entries. -/
structure Schedule where
  run : List (String × String) → List (String × String)
  perm : ∀ l, (run l).Perm l

/-- The schedule that keeps the order of the list. -/
def Schedule.inOrder : Schedule := ⟨fun l => l, fun l => List.Perm.refl l⟩

/-- The schedule that visits the list back to front. -/
def Schedule.backwards : Schedule := ⟨fun l => l.reverse, fun l => List.reverse_perm l⟩

/-! ## Results -/

/-- Outcome of a Go call: a value, a returned `error`, or a run-time panic. -/
inductive Result (α : Type) where
  | ok (a : α)
  | error (msg : String)
  | panic (msg : String)
  deriving DecidableEq, Repr

/-! ## Reflection -/

/-- The kinds of `reflect.Kind` other than `Invalid`, `Ptr` and `Struct`. -/
inductive LeafKind where
  | Bool | Int | Int8 | Int16 | Int32 | Int64
  | Uint | Uint8 | Uint16 | Uint32 | Uint64 | Uintptr
  | Float32 | Float64 | Complex64 | Complex128
  | Array | Chan | Func | Interface | Map | Slice | String | UnsafePointer
  deriving DecidableEq, Repr

/-- Go `reflect.Kind`. -/
inductive Kind where
  | Invalid
  | Ptr
  | Struct
  | other (k : LeafKind)
  deriving DecidableEq, Repr

/-- Go `reflect.Kind.String`. -/
def Kind.String : Kind → String
  | .Invalid => "invalid"
  | .Ptr => "ptr"
  | .Struct => "struct"
  | .other .Bool => "bool"
  | .other .Int => "int"
  | .other .Int8 => "int8"
  | .other .Int16 => "int16"
  | .other .Int32 => "int32"
  | .other .Int64 => "int64"
  | .other .Uint => "uint"
  | .other .Uint8 => "uint8"
  | .other .Uint16 => "uint16"
  | .other .Uint32 => "uint32"
  | .other .Uint64 => "uint64"
  | .other .Uintptr => "uintptr"
  | .other .Float32 => "float32"
  | .other .Float64 => "float64"
  | .other .Complex64 => "complex64"
  | .other .Complex128 => "complex128"
  | .other .Array => "array"
  | .other .Chan => "chan"
  | .other .Func => "func"
  | .other .Interface => "interface"
  | .other .Map => "map"
  | .other .Slice => "slice"
  | .other .String => "string"
  | .other .UnsafePointer => "unsafe.Pointer"

/-- Go `reflect.StructField`, as far as the walk reads it: the field's name, the
name of its type (`field.Type().Name()`), whether the field is exported (so that a
value reached through it can be set), and its struct tag as key/value pairs. -/
structure StructField where
  name : String
  typeName : String
  exported : Bool
  tag : List (String × String)
  deriving DecidableEq, Repr

/-- Go `reflect.StructTag.Get`: the value of `key` in the tag, `""` when absent. -/
def StructField.tagGet (sf : StructField) (key : String) : String :=
  match GoMap.get sf.tag key with
  | some v => v
  | none => ""

mutual
/-- A Go value as `reflect` shows it. `leaf k` is any value whose kind is neither
pointer nor struct; `nilPtr` is a nil pointer of any pointer type. -/
inductive Value where
  | leaf (k : LeafKind)
  | nilPtr
  | ptr (elem : Value)
  | struct (fields : Fields)
/-- The fields of a struct value, in declaration order. -/
inductive Fields where
  | nil
  | cons (sf : StructField) (v : Value) (rest : Fields)
end

/-- An `interface{}` argument: `none` is the nil interface. -/
abbrev Iface := Option Value

/-- Go `reflect.Value.Kind`. -/
def Value.Kind : Value → Kind
  | .leaf k => .other k
  | .nilPtr => .Ptr
  | .ptr _ => .Ptr
  | .struct _ => .Struct

/-- Kind of `v.Elem()` for a pointer `v`: the zero Value (kind `Invalid`) for a nil
pointer. -/
def Value.ElemKind : Value → Konfig.Kind
  | .ptr e => e.Kind
  | _ => .Invalid

/-- The fields the walk descends into at a value: those of a struct, or of the
struct behind a non-nil pointer. -/
def Value.structBelow : Value → Option Fields
  | .struct fs => some fs
  | .ptr (.struct fs) => some fs
  | _ => none

/-! ## `validate_struct.go` -/

def gcpSecretTag : String := "gcpsecret"
def koanfTag : String := "koanf"

/-- Go `validateField(field)`, for the field described by `sf`. A field of a struct
is always a valid Value; it can be set exactly when it is exported (the struct is
reached through a pointer, hence addressable). -/
def validateField (sf : StructField) : Result Unit :=
  if !sf.exported then
    .error ("field " ++ sf.typeName ++
      " is not valid - check if field is value and that it is exported from struct")
  else
    .ok ()

mutual
/-- Go `validateStruct(cfg)` for `cfg` a non-nil pointer to `v` (the root kind is
`Ptr`): the check of the pointee's kind and the loop over its fields. -/
def validateStructAt : Value → Result Value
  | .struct fs =>
    match validateStructLoop fs with
    | .ok _ => .ok (.struct fs)
    | .error e => .error e
    | .panic e => .panic e
  | v => .error ("cfg argument must be a pointer to a struct, got: " ++ v.Kind.String)
/-- The `for` loop of `validateStruct` over the fields from index `i` on. A field of
kind struct is passed on as `field.Addr().Interface()`, which panics for an
unexported field. -/
def validateStructLoop : Fields → Result Unit
  | .nil => .ok ()
  | .cons sf (.struct fs) rest =>
    if sf.exported then
      match validateStructAt (.struct fs) with
      | .ok _ => validateStructLoop rest
      | .error e => .error e
      | .panic e => .panic e
    else
      .panic "reflect.Value.Interface: cannot return value obtained from unexported field or method"
  | .cons sf _ rest =>
    match validateField sf with
    | .ok _ => validateStructLoop rest
    | .error e => .error e
    | .panic e => .panic e
end

/-- Go `validateStruct(cfg)`. -/
def validateStruct : Iface → Result Value
  | none => .panic "runtime error: invalid memory address or nil pointer dereference"
  | some (.ptr v) => validateStructAt v
  | some .nilPtr =>
    .error ("cfg argument must be a pointer to a struct, got: " ++ Value.nilPtr.ElemKind.String)
  | some v => .error ("cfg argument must be a pointer to a struct, got:" ++ v.Kind.String)

mutual
/-- Go `resolveSecretNames(skipNil, prefix, s)`; `s` is always a struct value. -/
def resolveSecretNames (skipNil : Bool) (pre : List String) : Value → GoMap String
  | .struct fs => resolveSecretNamesLoop skipNil pre fs []
  | _ => []
/-- The `for` loop of `resolveSecretNames` over the fields from index `i` on, with
the entries collected so far. -/
def resolveSecretNamesLoop (skipNil : Bool) (pre : List String) :
    Fields → GoMap String → GoMap String
  | .nil, secrets => secrets
  | .cons sf (.struct fs) rest, secrets =>
    let res := resolveSecretNames skipNil (pre ++ [sf.tagGet koanfTag]) (.struct fs)
    resolveSecretNamesLoop skipNil pre rest
      (res.foldl (fun acc kv => GoMap.set acc kv.1 kv.2) secrets)
  | .cons sf (.ptr (.struct fs)) rest, secrets =>
    let res := resolveSecretNames skipNil (pre ++ [sf.tagGet koanfTag]) (.struct fs)
    resolveSecretNamesLoop skipNil pre rest
      (res.foldl (fun acc kv => GoMap.set acc kv.1 kv.2) secrets)
  | .cons sf _ rest, secrets =>
    if sf.tagGet gcpSecretTag = "" then
      resolveSecretNamesLoop skipNil pre rest secrets
    else
      resolveSecretNamesLoop skipNil pre rest
        (GoMap.set secrets (Join (pre ++ [sf.tagGet koanfTag]) ".") (sf.tagGet gcpSecretTag))
end

/-- Go `validateAndResolve(cfg)`. -/
def validateAndResolve (cfg : Iface) : Result (GoMap String) :=
  match validateStruct cfg with
  | .ok s => .ok (resolveSecretNames false [] s)
  | .error e => .error e
  | .panic e => .panic e

/-! ## The walk as the specification describes it -/

mutual
/-- The annotated leaf fields below a struct value, as the specification describes
them: every field that is not walked into (neither a struct nor a non-nil pointer to
a struct) and carries a non-empty `gcpsecret` tag, reached through struct fields and
non-nil pointer-to-struct fields, with the chain of `koanf` tags from the root down
to the field and the field's `gcpsecret` tag. -/
def annotatedLeaves : Value → List (List String × String)
  | .struct fs => annotatedLeavesOf fs
  | _ => []
/-- The annotated leaf fields found in a list of fields. -/
def annotatedLeavesOf : Fields → List (List String × String)
  | .nil => []
  | .cons sf (.struct fs) rest =>
    (annotatedLeaves (.struct fs)).map (fun e => (sf.tagGet koanfTag :: e.1, e.2))
      ++ annotatedLeavesOf rest
  | .cons sf (.ptr (.struct fs)) rest =>
    (annotatedLeaves (.struct fs)).map (fun e => (sf.tagGet koanfTag :: e.1, e.2))
      ++ annotatedLeavesOf rest
  | .cons sf _ rest =>
    if sf.tagGet gcpSecretTag = "" then annotatedLeavesOf rest
    else ([sf.tagGet koanfTag], sf.tagGet gcpSecretTag) :: annotatedLeavesOf rest
end

/-- The entries the specification asks for: the chain of tags below the segments
`pre`, joined with ".", and the secret identifier. -/
def pathEntries (pre : List String) (leaves : List (List String × String)) : GoMap String :=
  leaves.map (fun e => (Join (pre ++ e.1) ".", e.2))

/-- A chain of nested structs: every struct holds one leaf field, and every struct
but the innermost holds the next struct of the chain in a second field. The chain
built from `n` pairs has `n + 1` structs. -/
def nestedChain (last : StructField) : List (StructField × StructField) → Value
  | [] => .struct (.cons last (.leaf .String) .nil)
  | (l, n) :: rest =>
    .struct (.cons l (.leaf .String) (.cons n (nestedChain last rest) .nil))

/-! ## `koanf_secret_resolver.go` -/

def defaultConcurrency : Int := 50

/-- Go `Config`. -/
structure Config where
  Project : String
  Delim : String
  WatchInterval : Int
  Concurrency : Int
  SkipKeys : List String

/-- The remote secret store (`*secretmanager.Client`): `AccessSecretVersion` maps the
name of a request to the payload of the secret version, or fails with an error,
given by its text. -/
structure Client where
  AccessSecretVersion : String → Except String String

/-- Go `SMConfig`; `cb` is `none` for a nil callback. -/
structure SMConfig where
  client : Client
  config : Config
  target : Iface
  cb : Option (String → String)

/-- Go `Provider(ctx, cfg, target, cb)`; `newClient` is the outcome of
`secretmanager.NewClient`. -/
def Provider (newClient : Except String Client) (cfg : Config) (target : Iface)
    (cb : Option (String → String)) : Result SMConfig :=
  match newClient with
  | .error err => .error ("could not create secretmanager client: " ++ err)
  | .ok client =>
    let cfg := if cfg.Delim = "" then { cfg with Delim := "." } else cfg
    let cfg := if cfg.Concurrency = 0 then { cfg with Concurrency := defaultConcurrency } else cfg
    .ok { client := client, config := cfg, cb := cb, target := target }

/-- Go `ProviderWithClient(cfg, cb, client)`; the target keeps its zero value, the
nil interface. -/
def ProviderWithClient (cfg : Config) (cb : Option (String → String)) (client : Client) :
    SMConfig :=
  { client := client, config := cfg, cb := cb, target := none }

/-- Go `koanfParams`. -/
structure koanfParams where
  koanfName : String
  gcpName : String

/-- Go `getLatestSecretVersion(client, project, name)`, returning the payload data of
the response as a string. -/
def getLatestSecretVersion (client : Client) (project name : String) : Except String String :=
  client.AccessSecretVersion ("projects/" ++ project ++ "/secrets/" ++ name ++ "/versions/latest")

/-- What one call of `getSecrets` does: the size it hands to `ants.NewPoolWithFunc`,
the secret identifiers its workers pass to `getLatestSecretVersion` (one item per
call), and the values it returns. -/
structure FetchRun where
  poolSize : Int
  calls : List String
  result : Result (GoMap String)

/-- The body of the pool function of `getSecrets` for one invoked `koanfParams`:
`st.1` is the map `res`, `st.2` the channel `c` of `errorStruct`s, as pairs of the
error text and the name. -/
def getSecretsWorker (sm : SMConfig) (st : GoMap String × List (String × String))
    (p : koanfParams) : GoMap String × List (String × String) :=
  match getLatestSecretVersion sm.client sm.config.Project p.gcpName with
  | .error err => (st.1, st.2 ++ [(err, p.gcpName)])
  | .ok secret => (GoMap.set st.1 p.koanfName secret, st.2)

/-- Go `(sm *SMConfig) getSecrets(ctx, secretsToFetch)`. Every entry of the map is
invoked on the pool; the pool runs every invoked item once, and `sched` gives the
order in which the workers run to completion. The channel is buffered for all
entries, so no worker blocks on it, and it is read after `wg.Wait()`. -/
def getSecrets (sched : Schedule) (sm : SMConfig) (secretsToFetch : GoMap String) : FetchRun :=
  let invoked : List koanfParams :=
    (sched.run secretsToFetch).map (fun kv => { koanfName := kv.1, gcpName := kv.2 })
  let done := invoked.foldl (getSecretsWorker sm) ([], [])
  let errs : List String := done.2.map (fun e => e.2 ++ ": " ++ e.1)
  { poolSize := sm.config.Concurrency
    calls := invoked.map (fun p => p.gcpName)
    result :=
      if errs.length ≠ 0 then .error ("Error when fetching secrets: " ++ Join errs ", ")
      else .ok done.1 }

/-- A value held in the nested `map[string]interface{}` that `Read` returns: a string,
or a nested map. -/
inductive Node where
  | str (v : String)
  | sub (m : List (String × Node))

/-- What one call of `Read` does: the secret identifiers fetched from the remote
store, and the values it returns. -/
structure ReadRun where
  calls : List String
  result : Result (GoMap Node)

/-- The loop of `Read` over `res` that fills `mp`: the flat map of the values
fetched, under the keys remapped by `cb`; `sched` gives the order of the loop. -/
def SMConfig.flatMap (sm : SMConfig) (sched : Schedule) (res : GoMap String) : GoMap String :=
  (sched.run res).foldl
    (fun mp kv =>
      match sm.cb with
      | some cb => GoMap.set mp (cb kv.1) kv.2
      | none => GoMap.set mp kv.1 kv.2) []

/-- Go `(sm *SMConfig) Read()`. `unflatten` is `maps.Unflatten` of the koanf library:
a call of it yields a map (`ok`) or panics (`error`, with the text of the panic); it
has no error result, and `Read` returns its map with a nil error. `sched` gives the
order of the workers in `getSecrets` and of the loop over `res`. -/
def SMConfig.Read (unflatten : GoMap String → String → Except String (GoMap Node))
    (sched : Schedule) (sm : SMConfig) : ReadRun :=
  match sm.target with
  | none => { calls := [], result := .error "no secret id  provided" }
  | some target =>
    match validateAndResolve (some target) with
    | .error e => { calls := [], result := .error e }
    | .panic e => { calls := [], result := .panic e }
    | .ok secretsToFetch =>
      let secretsToFetch := sm.config.SkipKeys.foldl GoMap.delete secretsToFetch
      let run := getSecrets sched sm secretsToFetch
      match run.result with
      | .error e => { calls := run.calls, result := .error e }
      | .panic e => { calls := run.calls, result := .panic e }
      | .ok res =>
        match unflatten (sm.flatMap sched res) sm.config.Delim with
        | .ok tree => { calls := run.calls, result := .ok tree }
        | .error p => { calls := run.calls, result := .panic p }

/-! ## The tree merger -/

/-- Go `strings.Split` on characters, for a non-empty separator `sep`: the pieces of
the text between the leftmost non-overlapping occurrences of `sep`. `skip` counts the
characters of an occurrence still to be passed over. -/
def splitChars (sep : List Char) : Nat → List Char → List (List Char)
  | _, [] => [[]]
  | skip + 1, _ :: cs => splitChars sep skip cs
  | 0, c :: cs =>
    if sep.isPrefixOf (c :: cs) then [] :: splitChars sep (sep.length - 1) cs
    else
      match splitChars sep 0 cs with
      | [] => [[c]]
      | seg :: segs => (c :: seg) :: segs

/-- Go `strings.Split(s, sep)`; an empty separator splits after every character. -/
def Split (s sep : String) : List String :=
  if sep.data = [] then s.data.map (fun c => String.mk [c])
  else (splitChars sep.data 0 s.data).map String.mk

/-- Setting the value `v` at the path `segs`, of at least one segment, in a nested
map: intermediate maps are walked, and created where missing, for all segments but
the last; the last segment is set to the leaf. Where an intermediate segment holds a
value that is not a map the walk goes on in the current map. (`Unflatten` makes no
call with an empty path.) -/
def insertPath : List String → String → GoMap Node → GoMap Node
  | [], _, m => m
  | [last], v, m => GoMap.set m last (.str v)
  | seg :: rest, v, m =>
    match GoMap.get m seg with
    | none => GoMap.set m seg (.sub (insertPath rest v []))
    | some (.sub n) => GoMap.set m seg (.sub (insertPath rest v n))
    | some (.str _) => insertPath rest v m

/-- The body of the loop of `Unflatten` for one entry of the flat map; `out` is the
nested map built so far, or the panic that ended the loop. A key that splits into no
segments (the empty key with the empty delimiter) makes the slice expression
`keys[:len(keys)-1]` panic. -/
def unflattenStep (delim : String) (out : Except String (GoMap Node))
    (kv : String × String) : Except String (GoMap Node) :=
  match out with
  | .error p => .error p
  | .ok tree =>
    match Split kv.1 delim with
    | [] => .error "runtime error: slice bounds out of range [:-1]"
    | seg :: rest => .ok (insertPath (seg :: rest) kv.2 tree)

/-- Modelled from the spec: `maps.Unflatten` of the koanf library, which `Read` calls
for the merge and which is not part of the sources. "Split each key on the delimiter
into segments; walk/create intermediate composite nodes for all but the last
segment; set the leaf value at the final segment." The call in `Read` takes the
result as a single value, a map, so the function has no error to return: it yields
the map (`ok`) or panics (`error`, with the text of the panic). `sched` gives the
order of its loop over the flat map. -/
def Unflatten (sched : Schedule) (m : GoMap String) (delim : String) :
    Except String (GoMap Node) :=
  (sched.run m).foldl (unflattenStep delim) (.ok [])

/-- The leaf that the path `segs`, followed segment by segment, leads to in a nested
map, if it leads to one. -/
def leafAt : List String → GoMap Node → Option String
  | [], _ => none
  | [last], m =>
    match GoMap.get m last with
    | some (.str v) => some v
    | _ => none
  | seg :: rest, m =>
    match GoMap.get m seg with
    | some (.sub n) => leafAt rest n
    | _ => none

/-- The pieces of a split on "." joined again with ".". -/
def unsplitDot : List (List Char) → List Char
  | [] => []
  | [a] => a
  | a :: b :: rest => a ++ '.' :: unsplitDot (b :: rest)

/-- No key of `keys` is, segment by segment, a prefix of another key. -/
def PrefixFree (keys : List String) (delim : String) : Prop :=
  ∀ a ∈ keys, ∀ b ∈ keys, Split a delim <+: Split b delim → a = b

instance (keys : List String) (delim : String) : Decidable (PrefixFree keys delim) := by
  unfold PrefixFree; infer_instance

/-! ## Example schemas -/

/-- An exported field of type `string` with the given tag. -/
def stringField (name : String) (tag : List (String × String)) : StructField :=
  { name := name, typeName := "string", exported := true, tag := tag }

/-- `cfg` of `Test_validateAndResolve`. -/
def testCfg : Value :=
  .struct (.cons (stringField "Simple" [("koanf", "simple"), ("gcpsecret", "gcp_simple")])
    (.leaf .String)
    (.cons (stringField "Ignore" [("koanf", "ignore")]) (.leaf .String) .nil))

/-- `cfgNested` and `cfgNestedWithPointer` of `Test_validateAndResolve`, with the
value `nested` of the field `Nested`. -/
def testCfgNested (nested : Value) : Value :=
  .struct (.cons (stringField "Simple" [("koanf", "outer"), ("gcpsecret", "outer_gcp")])
    (.leaf .String)
    (.cons { name := "Nested", typeName := "cfg", exported := true, tag := [("koanf", "nested")] }
      nested
    (.cons (stringField "Ignore" [("koanf", "ignore")]) (.leaf .String) .nil)))

/-- The schema of the specification's scenario:
`{Simple secret S1 at "simple"; Nested at "nested" {Inner secret S2 at "inner"}}`. -/
def scenarioSchema : Value :=
  .struct (.cons (stringField "Simple" [("koanf", "simple"), ("gcpsecret", "S1")])
    (.leaf .String)
    (.cons { name := "Nested", typeName := "", exported := true, tag := [("koanf", "nested")] }
      (.struct (.cons (stringField "Inner" [("koanf", "inner"), ("gcpsecret", "S2")])
        (.leaf .String) .nil))
      .nil))

/-- The store of the scenario: `S1` holds "a", `S2` holds "b", of project `p`. -/
def scenarioClient : Client :=
  { AccessSecretVersion := fun name =>
      if name = "projects/p/secrets/S1/versions/latest" then .ok "a"
      else if name = "projects/p/secrets/S2/versions/latest" then .ok "b"
      else .error "not found" }

/-- The store of the scenario in which the fetch of `S2` fails with "not found". -/
def scenarioFailingClient : Client :=
  { AccessSecretVersion := fun name =>
      if name = "projects/p/secrets/S1/versions/latest" then .ok "a"
      else .error "not found" }

/-- A provider for the scenario schema, of project `p`, with the identity key remap,
the delimiter "." and the given skip keys. -/
def scenarioSM (client : Client) (skip : List String) : SMConfig :=
  { client := client
    config := { Project := "p", Delim := ".", WatchInterval := 0, Concurrency := 50,
                SkipKeys := skip }
    target := some (.ptr scenarioSchema)
    cb := some (fun s => s) }

/-- A schema accepted by `validateStruct` in which the path "a" is a secret and also
the place of a nested struct holding the secret "a.b". -/
def conflictSchema : Value :=
  .struct (.cons (stringField "A" [("koanf", "a"), ("gcpsecret", "S1")]) (.leaf .String)
    (.cons { name := "B", typeName := "", exported := true, tag := [("koanf", "a")] }
      (.struct (.cons (stringField "C" [("koanf", "b"), ("gcpsecret", "S2")])
        (.leaf .String) .nil))
      .nil))

/-- A chain of three nested structs, each holding one annotated field. -/
def chainOfThree : Value :=
  nestedChain (stringField "C" [("koanf", "c"), ("gcpsecret", "S3")])
    [(stringField "A" [("koanf", "a"), ("gcpsecret", "S1")],
      { name := "N1", typeName := "", exported := true, tag := [("koanf", "n1")] }),
     (stringField "B" [("koanf", "b"), ("gcpsecret", "S2")],
      { name := "N2", typeName := "", exported := true, tag := [("koanf", "n2")] })]

/-- A provider for the schema `conflictSchema` and the store of the scenario. -/
def conflictSM : SMConfig :=
  { client := scenarioClient
    config := { Project := "p", Delim := ".", WatchInterval := 0, Concurrency := 50,
                SkipKeys := [] }
    target := some (.ptr conflictSchema)
    cb := some (fun s => s) }

/-- A schema whose only field is a secret without a koanf tag: its path is the empty
string. -/
def emptyKeySchema : Value :=
  .struct (.cons (stringField "A" [("gcpsecret", "S1")]) (.leaf .String) .nil)

/-- A provider for `emptyKeySchema` whose delimiter is the empty string. -/
def emptyDelimSM : SMConfig :=
  { client := scenarioClient
    config := { Project := "p", Delim := "", WatchInterval := 0, Concurrency := 50,
                SkipKeys := [] }
    target := some (.ptr emptyKeySchema)
    cb := none }

/-- A struct with one unexported field `secret string`, tagged as a secret. -/
def hiddenSecret : Value :=
  .struct (.cons { name := "secret", typeName := "string", exported := false,
                   tag := [("koanf", "secret"), ("gcpsecret", "S")] } (.leaf .String) .nil)

/-- A root struct whose only field `nested inner`, tagged `koanf:"nested"`, is
unexported and holds a struct with one exported secret field. -/
def hiddenStructRoot : Value :=
  .struct (.cons { name := "nested", typeName := "inner", exported := false,
                   tag := [("koanf", "nested")] }
    (.struct (.cons (stringField "Secret" [("koanf", "secret"), ("gcpsecret", "S")])
      (.leaf .String) .nil))
    .nil)

/-- A root struct with one exported field `Nested`, tagged `koanf:"nested"`, holding
the value `nested`. -/
def nestedRoot (nested : Value) : Value :=
  .struct (.cons { name := "Nested", typeName := "inner", exported := true,
                   tag := [("koanf", "nested")] } nested .nil)

/-- The fields of a root struct whose only field is an exported pointer to a struct,
nil, tagged `koanf:"nested" gcpsecret:"X"`. -/
def taggedNilPointerFields : Fields :=
  .cons { name := "Nested", typeName := "", exported := true,
          tag := [("koanf", "nested"), ("gcpsecret", "X")] } .nilPtr .nil

/-- The fields of a root struct whose only field is a struct without a `koanf` tag,
holding the secret field `X string` tagged `koanf:"x" gcpsecret:"S"`. -/
def untaggedStructFields : Fields :=
  .cons { name := "Nested", typeName := "inner", exported := true, tag := [] }
    (.struct (.cons (stringField "X" [("koanf", "x"), ("gcpsecret", "S")]) (.leaf .String) .nil))
    .nil

/-- The fields of `cfgNestedWithPointer` of `Test_validateAndResolve` with the field
`Nested` nil. -/
def testCfgNilPointerFields : Fields :=
  .cons (stringField "Simple" [("koanf", "outer"), ("gcpsecret", "outer_gcp")]) (.leaf .String)
    (.cons { name := "Nested", typeName := "", exported := true, tag := [("koanf", "nested")] }
      .nilPtr
    (.cons (stringField "Ignore" [("koanf", "ignore")]) (.leaf .String) .nil))

/-- A `Config` of project `p` with the given concurrency. -/
def configWithConcurrency (c : Int) : Config :=
  { Project := "p", Delim := ".", WatchInterval := 0, Concurrency := c, SkipKeys := [] }

/-! ## Removing a field from a schema -/

/-- The field at the position `path` of a struct with the fields `fs`: the path holds
the index of a field, followed, for a field the walk descends into, by the position
below that field. -/
def Fields.fieldAt : Fields → List Nat → Option (StructField × Value)
  | .nil, _ => none
  | .cons _ _ _, [] => none
  | .cons sf v _, [0] => some (sf, v)
  | .cons _ _ rest, (i + 1) :: p => rest.fieldAt (i :: p)
  | .cons _ (.struct fs) _, 0 :: j :: p => fs.fieldAt (j :: p)
  | .cons _ (.ptr (.struct fs)) _, 0 :: j :: p => fs.fieldAt (j :: p)
  | .cons _ _ _, 0 :: _ :: _ => none

/-- The fields `fs` with the field at the position `path` removed from the schema. -/
def Fields.removeAt : Fields → List Nat → Fields
  | .nil, _ => .nil
  | .cons sf v rest, [] => .cons sf v rest
  | .cons _ _ rest, [0] => rest
  | .cons sf v rest, (i + 1) :: p => .cons sf v (rest.removeAt (i :: p))
  | .cons sf (.struct fs) rest, 0 :: j :: p => .cons sf (.struct (fs.removeAt (j :: p))) rest
  | .cons sf (.ptr (.struct fs)) rest, 0 :: j :: p =>
    .cons sf (.ptr (.struct (fs.removeAt (j :: p)))) rest
  | .cons sf v rest, 0 :: _ :: _ => .cons sf v rest

/-! ## `config.go` -/

/-- A Go `interface{}` value as the configuration code inspects it: by its dynamic
type. `other` is a value of any further type, given by the name of the type and the
value as text. -/
inductive Any where
  | nil
  | str (s : String)
  | bool (b : Bool)
  | env (e : String)
  | runtime (r : String)
  | set (s0 s1 s2 : Any)
  | other (typeName : String) (value : String)
  deriving DecidableEq, Repr

/-- Go `Set`, `[3]interface{}`. -/
abbrev Set := Any × Any × Any

/-- Go `ENV`, a string type. -/
abbrev ENV := String

def DEV : ENV := "dev"
def STAGING : ENV := "staging"
def PROD : ENV := "prod"

/-- Go `RUNTIME`, a string type. -/
abbrev RUNTIME := String

def LOCAL : RUNTIME := "local"
def CI : RUNTIME := "ci"
def TEST : RUNTIME := "test"
def CLOUD : RUNTIME := "cloud"

def envKey : String := "env"
def runtimeKey : String := "runtime"
def projectKey : String := "project"
def regionKey : String := "region"

/-- The name of the dynamic type of a value, as a failed type assertion prints it. -/
def Any.typeName : Any → String
  | .nil => "nil"
  | .str _ => "string"
  | .bool _ => "bool"
  | .env _ => "konfig.ENV"
  | .runtime _ => "konfig.RUNTIME"
  | .set _ _ _ => "konfig.Set"
  | .other t _ => t

/-- Go `v.(string)`: the type assertion without the `ok` result panics for a value
that is not a string. -/
def assertString (v : Any) : Result String :=
  match v with
  | .str s => .ok s
  | v => .panic ("interface conversion: interface {} is " ++ v.typeName ++ ", not string")

set_option linter.dupNamespace false

/-- Go `Konfig`, as far as the code below reads it. `Koanf` is the store of the
embedded `*koanf.Koanf`, of the koanf library: a map from key to value, read by `Get`
and written by `Set`. -/
structure Konfig where
  Koanf : GoMap Any
  projects : Set
  defaultRegion : String
  defaults : GoMap Any
  configPath : String

/-- Go `k.Get(key)` of the koanf library: the value stored for the key, nil when
there is none. -/
def Konfig.Get (k : Konfig) (key : String) : Any :=
  match GoMap.get k.Koanf key with
  | some v => v
  | none => .nil

/-- Go `k.Set(key, val)` of the koanf library, for a key without the delimiter. -/
def Konfig.Set (k : Konfig) (key : String) (val : Any) : Konfig :=
  { k with Koanf := GoMap.set k.Koanf key val }

/-- Go `WithDefaults(defaults)`. -/
def WithDefaults (defaults : GoMap Any) : Konfig → Konfig :=
  fun k => { k with defaults := defaults }

/-- Go `WithConfigPath(configPath)`. -/
def WithConfigPath (configPath : String) : Konfig → Konfig :=
  fun k => { k with configPath := configPath }

/-- Go `NewKonfig(projects, defaultRegion, opts...)`. -/
def NewKonfig (projects : Set) (defaultRegion : String) (opts : List (Konfig → Konfig)) :
    Konfig :=
  opts.foldl (fun ko opt => opt ko)
    { Koanf := [], projects := projects, defaultRegion := defaultRegion, defaults := [],
      configPath := "" }

/-- Go `(k *Konfig) SetEnv(env)`. -/
def Konfig.SetEnv (k : Konfig) (env : ENV) : Konfig := k.Set envKey (.env env)

/-- Go `(k *Konfig) SetRuntime(env)`. -/
def Konfig.SetRuntime (k : Konfig) (env : RUNTIME) : Konfig := k.Set runtimeKey (.runtime env)

/-- What the process reads from its surroundings: the environment variables, whether
the flag `test.v` is registered, and the GCE metadata server. -/
structure Host where
  Getenv : String → String
  testFlag : Bool
  OnGCE : Bool
  ProjectID : Except String String
  Zone : Except String String

/-- Go `IsCi()`. -/
def IsCi (host : Host) : Bool := host.Getenv "CI" = "true"

/-- Go `IsTest()`. -/
def IsTest (host : Host) : Bool := if host.testFlag = false then false else true

/-- Go `getRuntime()`. -/
def getRuntime (host : Host) : RUNTIME :=
  if IsCi host then CI
  else if IsTest host then TEST
  else if host.OnGCE then CLOUD
  else LOCAL

/-- Go `(k *Konfig) Runtime()`: the runtime and the state of `k` afterwards. -/
def Konfig.Runtime (host : Host) (k : Konfig) : RUNTIME × Konfig :=
  match k.Get runtimeKey with
  | .runtime runtime => (runtime, k)
  | _ =>
    let runtime := getRuntime host
    (runtime, k.Set runtimeKey (.runtime runtime))

/-- Go `projectFromEnv(k, env)`. -/
def projectFromEnv (k : Konfig) (env : ENV) : Result String :=
  if env = PROD then assertString k.projects.2.2
  else if env = STAGING then assertString k.projects.2.1
  else assertString k.projects.1

/-- Go `(k *Konfig) isInternalProject(project)`. -/
def Konfig.isInternalProject (k : Konfig) (project : String) : Result Bool :=
  match assertString k.projects.1 with
  | .panic e => .panic e
  | .error e => .error e
  | .ok p0 =>
    if p0 = project then .ok true
    else
      match assertString k.projects.2.1 with
      | .panic e => .panic e
      | .error e => .error e
      | .ok p1 =>
        if p1 = project then .ok true
        else
          match assertString k.projects.2.2 with
          | .panic e => .panic e
          | .error e => .error e
          | .ok p2 => if p2 = project then .ok true else .ok false

/-- Go `zone[:strings.LastIndex(zone, "-")]` on characters: the text before the last
"-", `none` when there is no "-" (the index is -1 and the slice expression panics). -/
def beforeLastDash : List Char → Option (List Char)
  | [] => none
  | c :: cs =>
    match beforeLastDash cs with
    | some p => some (c :: p)
    | none => if c = '-' then some [] else none

/-- Go `(k *Konfig) getMetadataFromGcp()`: the results `OnGCP`, `ProjectId`, `Region`
when `err` is nil, the text of `err` otherwise. `errors.Wrap` of a nil error is nil,
so the empty region is returned without an error. -/
def Konfig.getMetadataFromGcp (host : Host) (k : Konfig) : Result (Bool × String × String) :=
  match host.ProjectID with
  | .error e => .error ("failed to get project id: " ++ e)
  | .ok projectId =>
    match k.isInternalProject projectId with
    | .panic e => .panic e
    | .error e => .error e
    | .ok false => .ok (false, "", "")
    | .ok true =>
      match host.Zone with
      | .error e => .error ("failed to get compute zone: " ++ e)
      | .ok zone =>
        match beforeLastDash zone.data with
        | none => .panic "runtime error: slice bounds out of range [:-1]"
        | some region =>
          if region = [] then .ok (true, "", "")
          else .ok (true, projectId, String.mk region)

/-- Go `parseEnvFromProjectName(project)`. -/
def parseEnvFromProjectName (project : String) : ENV :=
  if Contains project PROD then PROD
  else if Contains project STAGING then STAGING
  else if Contains project DEV then DEV
  else DEV

/-- Go `k.Set(projectKey, p)` for an argument `p` whose evaluation may panic: the
panic leaves `k` as it is. -/
def Konfig.setProject (k : Konfig) (p : Result String) : Konfig × Result Unit :=
  match p with
  | .ok project => (k.Set projectKey (.str project), .ok ())
  | .error e => (k, .error e)
  | .panic e => (k, .panic e)

/-- Go `initializeEnvAndRuntime(k)`: the state of `k` afterwards, and the error
returned (`ok` for nil) or the panic. -/
def initializeEnvAndRuntime (host : Host) (k : Konfig) : Konfig × Result Unit :=
  let (runtime, k) := k.Runtime host
  if runtime = CI ∨ runtime = TEST then
    let (k, r) :=
      match k.Get envKey with
      | .env env => k.setProject (projectFromEnv k env)
      | _ => (k.Set envKey (.env DEV), .ok ())
    match r with
    | .ok _ =>
      let k := k.Set regionKey (.str k.defaultRegion)
      k.setProject (assertString k.projects.2.1)
    | .error e => (k, .error e)
    | .panic e => (k, .panic e)
  else if runtime = CLOUD then
    match k.getMetadataFromGcp host with
    | .error e => (k, .error ("failed to get metadata from gcp: " ++ e))
    | .panic e => (k, .panic e)
    | .ok (gcp, project, region) =>
      let env := parseEnvFromProjectName project
      if gcp then
        let k := k.Set envKey (.env env)
        let k := k.Set regionKey (.str region)
        (k.Set projectKey (.str project), .ok ())
      else (k, .ok ())
  else if runtime = LOCAL then
    let k := k.Set regionKey (.str k.defaultRegion)
    match k.Get envKey with
    | .env env => k.setProject (projectFromEnv k env)
    | _ =>
      let k := k.Set envKey (.env DEV)
      k.setProject (assertString k.projects.2.1)
  else (k, .ok ())

/-- Go `(k *Konfig) Env()`. -/
def Konfig.Env (k : Konfig) : Result ENV :=
  match k.Get envKey with
  | .env env => .ok env
  | _ => .panic "env not set"

/-- The order in which a `range` loop visits the entries of a map with values in `β`:
any rearrangement of the entries. -/
structure RangeOrder (β : Type) where
  run : GoMap β → GoMap β
  perm : ∀ l, (run l).Perm l

/-- The order of the list. -/
def RangeOrder.inOrder (β : Type) : RangeOrder β := ⟨fun l => l, fun l => List.Perm.refl l⟩

/-- The order of the list, back to front. -/
def RangeOrder.backwards (β : Type) : RangeOrder β :=
  ⟨fun l => l.reverse, fun l => List.reverse_perm l⟩

/-- The body of the loop of `parseDefaults` at the key `k`: the value the map holds
for `k` is replaced, when it is a `Set`, by its item for `env`. -/
def parseDefaultsVisit (env : ENV) (m : GoMap Any) (k : String) : GoMap Any :=
  match GoMap.get m k with
  | some (.set s0 s1 s2) =>
    if env = DEV then GoMap.set m k s0
    else if env = STAGING then GoMap.set m k s1
    else if env = PROD then GoMap.set m k s2
    else m
  | _ => m

/-- Go `parseDefaults(env, m)`. The loop visits every key of `m` once, in the order
`ord`, and writes to `m` itself, which it returns. -/
def parseDefaults (ord : RangeOrder Any) (env : ENV) (m : GoMap Any) : GoMap Any :=
  (ord.run m).foldl (fun m kv => parseDefaultsVisit env m kv.1) m

/-- The item of a `Set` for `env`; a value that is not a `Set` as it is. -/
def itemForEnv (env : ENV) : Any → Any
  | .set s0 s1 s2 =>
    if env = DEV then s0
    else if env = STAGING then s1
    else if env = PROD then s2
    else .set s0 s1 s2
  | v => v

/-- `testProjectSet` of `config_test.go`. -/
def testProjectSet : Set :=
  (.str "playground-mscno", .str "playground-mscno", .str "playground-mscno")

/-- The defaults of `TestDefaultsOkResolvingConfig`. -/
def testDefaults : GoMap Any :=
  [("host", .set (.str "localhost") (.str "global") (.str "global")), ("port", .str "8080")]

/-- A process running under `go test`, outside CI and outside GCE. -/
def testHost : Host :=
  { Getenv := fun _ => "", testFlag := true, OnGCE := false,
    ProjectID := .error "metadata: GCE metadata not defined",
    Zone := .error "metadata: GCE metadata not defined" }

/-- The Konfig of `TestEnvOverrideConfig` before `InitializeConfig`. -/
def testEnvOverrideKonfig : Konfig :=
  ((NewKonfig testProjectSet "us-central1" []).SetRuntime LOCAL).SetEnv PROD

/-- A Konfig with runtime LOCAL, no env, and a project set that holds no strings. -/
def nilProjectsKonfig : Konfig :=
  (NewKonfig (.nil, .nil, .nil) "us-central1" []).SetRuntime LOCAL


/-! ## Lemmas on maps -/

namespace GoMap

theorem set_of_not_mem {β : Type} (m : GoMap β) (k : String) (v : β)
    (h : k ∉ keys m) : set m k v = m ++ [(k, v)] := by
  induction m with
  | nil => rfl
  | cons e rest ih =>
    obtain ⟨k', v'⟩ := e
    simp only [keys, List.map_cons, List.mem_cons, not_or] at h
    have hne : ¬ k' = k := fun hk => h.1 hk.symm
    simp only [set, hne, if_false, List.cons_append]
    rw [ih h.2]

/-- Writing a list of entries into a map. -/
theorem setAll_of_nodup {β : Type} (l : GoMap β) (m : GoMap β)
    (h : (keys m ++ keys l).Nodup) :
    l.foldl (fun acc kv => set acc kv.1 kv.2) m = m ++ l := by
  induction l generalizing m with
  | nil => simp
  | cons e rest ih =>
    obtain ⟨k, v⟩ := e
    have hk : k ∉ keys m := by
      intro hmem
      have := List.nodup_append.1 h
      exact (this.2.2 hmem (by simp [keys])).elim
    simp only [List.foldl_cons]
    rw [set_of_not_mem m k v hk, ih]
    · simp
    · simp only [keys, List.map_append, List.map_cons, List.map_nil, List.append_assoc,
        List.singleton_append] at h ⊢
      exact h

end GoMap

theorem pathEntries_append (pre : List String) (a b : List (List String × String)) :
    pathEntries pre (a ++ b) = pathEntries pre a ++ pathEntries pre b := by
  simp [pathEntries]

theorem pathEntries_nest (pre : List String) (t : String) (a : List (List String × String)) :
    pathEntries pre (a.map (fun e => (t :: e.1, e.2))) = pathEntries (pre ++ [t]) a := by
  simp [pathEntries, Function.comp_def]

theorem resolveSecretNamesLoop_leaf (b : Bool) (pre : List String) (sf : StructField)
    (v : Value) (rest : Fields) (secrets : GoMap String) (hv : v.structBelow = none) :
    resolveSecretNamesLoop b pre (.cons sf v rest) secrets =
      if sf.tagGet gcpSecretTag = "" then resolveSecretNamesLoop b pre rest secrets
      else resolveSecretNamesLoop b pre rest
        (GoMap.set secrets (Join (pre ++ [sf.tagGet koanfTag]) ".") (sf.tagGet gcpSecretTag)) := by
  cases v with
  | leaf k => simp [resolveSecretNamesLoop]
  | nilPtr => simp [resolveSecretNamesLoop]
  | struct fs => simp [Value.structBelow] at hv
  | ptr e =>
    cases e with
    | struct fs => simp [Value.structBelow] at hv
    | leaf k => simp [resolveSecretNamesLoop]
    | nilPtr => simp [resolveSecretNamesLoop]
    | ptr e2 => simp [resolveSecretNamesLoop]

theorem resolveSecretNamesLoop_below (b : Bool) (pre : List String) (sf : StructField)
    (v : Value) (rest : Fields) (secrets : GoMap String) (fs : Fields)
    (hv : v.structBelow = some fs) :
    resolveSecretNamesLoop b pre (.cons sf v rest) secrets =
      resolveSecretNamesLoop b pre rest
        ((resolveSecretNames b (pre ++ [sf.tagGet koanfTag]) (.struct fs)).foldl
          (fun acc kv => GoMap.set acc kv.1 kv.2) secrets) := by
  cases v with
  | leaf k => simp [Value.structBelow] at hv
  | nilPtr => simp [Value.structBelow] at hv
  | struct fs2 =>
    simp only [Value.structBelow, Option.some.injEq] at hv
    subst hv
    simp [resolveSecretNamesLoop]
  | ptr e =>
    cases e with
    | struct fs2 =>
      simp only [Value.structBelow, Option.some.injEq] at hv
      subst hv
      simp [resolveSecretNamesLoop]
    | leaf k => simp [Value.structBelow] at hv
    | nilPtr => simp [Value.structBelow] at hv
    | ptr e2 => simp [Value.structBelow] at hv

theorem annotatedLeavesOf_leaf (sf : StructField) (v : Value) (rest : Fields)
    (hv : v.structBelow = none) :
    annotatedLeavesOf (.cons sf v rest) =
      if sf.tagGet gcpSecretTag = "" then annotatedLeavesOf rest
      else ([sf.tagGet koanfTag], sf.tagGet gcpSecretTag) :: annotatedLeavesOf rest := by
  cases v with
  | leaf k => simp [annotatedLeavesOf]
  | nilPtr => simp [annotatedLeavesOf]
  | struct fs => simp [Value.structBelow] at hv
  | ptr e =>
    cases e with
    | struct fs => simp [Value.structBelow] at hv
    | leaf k => simp [annotatedLeavesOf]
    | nilPtr => simp [annotatedLeavesOf]
    | ptr e2 => simp [annotatedLeavesOf]

theorem annotatedLeavesOf_below (sf : StructField) (v : Value) (rest fs : Fields)
    (hv : v.structBelow = some fs) :
    annotatedLeavesOf (.cons sf v rest) =
      (annotatedLeavesOf fs).map (fun e => (sf.tagGet koanfTag :: e.1, e.2))
        ++ annotatedLeavesOf rest := by
  cases v with
  | leaf k => simp [Value.structBelow] at hv
  | nilPtr => simp [Value.structBelow] at hv
  | struct fs2 =>
    simp only [Value.structBelow, Option.some.injEq] at hv
    subst hv
    simp [annotatedLeavesOf, annotatedLeaves]
  | ptr e =>
    cases e with
    | struct fs2 =>
      simp only [Value.structBelow, Option.some.injEq] at hv
      subst hv
      simp [annotatedLeavesOf, annotatedLeaves]
    | leaf k => simp [Value.structBelow] at hv
    | nilPtr => simp [Value.structBelow] at hv
    | ptr e2 => simp [Value.structBelow] at hv

/-- One step of the loop at a field the walk does not descend into. -/
theorem loop_step_leaf (b : Bool) (pre : List String) (sf : StructField) (v : Value)
    (rest : Fields) (secrets : GoMap String) (hv : v.structBelow = none)
    (ih : ∀ secrets0 : GoMap String,
      (GoMap.keys secrets0 ++ GoMap.keys (pathEntries pre (annotatedLeavesOf rest))).Nodup →
      resolveSecretNamesLoop b pre rest secrets0 =
        secrets0 ++ pathEntries pre (annotatedLeavesOf rest))
    (h : (GoMap.keys secrets ++
      GoMap.keys (pathEntries pre (annotatedLeavesOf (.cons sf v rest)))).Nodup) :
    resolveSecretNamesLoop b pre (.cons sf v rest) secrets =
      secrets ++ pathEntries pre (annotatedLeavesOf (.cons sf v rest)) := by
  rw [resolveSecretNamesLoop_leaf b pre sf v rest secrets hv]
  rw [annotatedLeavesOf_leaf sf v rest hv] at h ⊢
  by_cases hg : sf.tagGet gcpSecretTag = ""
  · simp only [hg, if_true] at h ⊢
    exact ih secrets h
  · simp only [hg, if_false] at h ⊢
    have hk : Join (pre ++ [sf.tagGet koanfTag]) "." ∉ GoMap.keys secrets := by
      intro hmem
      have := List.nodup_append.1 h
      exact (this.2.2 hmem (by simp [GoMap.keys, pathEntries])).elim
    rw [GoMap.set_of_not_mem _ _ _ hk, ih]
    · simp [pathEntries]
    · simpa [GoMap.keys, pathEntries] using h

/-- One step of the loop at a field the walk descends into. -/
theorem loop_step_below (b : Bool) (pre : List String) (sf : StructField) (v : Value)
    (rest fs : Fields) (secrets : GoMap String) (hv : v.structBelow = some fs)
    (ihv : (GoMap.keys (pathEntries (pre ++ [sf.tagGet koanfTag])
        (annotatedLeaves (.struct fs)))).Nodup →
      resolveSecretNames b (pre ++ [sf.tagGet koanfTag]) (.struct fs) =
        pathEntries (pre ++ [sf.tagGet koanfTag]) (annotatedLeaves (.struct fs)))
    (ih : ∀ secrets0 : GoMap String,
      (GoMap.keys secrets0 ++ GoMap.keys (pathEntries pre (annotatedLeavesOf rest))).Nodup →
      resolveSecretNamesLoop b pre rest secrets0 =
        secrets0 ++ pathEntries pre (annotatedLeavesOf rest))
    (h : (GoMap.keys secrets ++
      GoMap.keys (pathEntries pre (annotatedLeavesOf (.cons sf v rest)))).Nodup) :
    resolveSecretNamesLoop b pre (.cons sf v rest) secrets =
      secrets ++ pathEntries pre (annotatedLeavesOf (.cons sf v rest)) := by
  rw [resolveSecretNamesLoop_below b pre sf v rest secrets fs hv]
  rw [annotatedLeavesOf_below sf v rest fs hv, pathEntries_append, pathEntries_nest] at h ⊢
  have h' : (GoMap.keys secrets ++
      (GoMap.keys (pathEntries (pre ++ [sf.tagGet koanfTag]) (annotatedLeavesOf fs)) ++
       GoMap.keys (pathEntries pre (annotatedLeavesOf rest)))).Nodup := by
    simpa [GoMap.keys] using h
  have hsub : (GoMap.keys (pathEntries (pre ++ [sf.tagGet koanfTag])
      (annotatedLeaves (.struct fs)))).Nodup := by
    simp only [annotatedLeaves]
    exact (List.nodup_append.1 (List.nodup_append.1 h').2.1).1
  rw [ihv hsub]
  simp only [annotatedLeaves]
  rw [GoMap.setAll_of_nodup, ih]
  · simp
  · simpa [GoMap.keys] using h'
  · rw [← List.append_assoc] at h'
    exact (List.nodup_append.1 h').1

mutual
theorem resolveSecretNames_eq (b : Bool) : ∀ (v : Value) (pre : List String),
    (GoMap.keys (pathEntries pre (annotatedLeaves v))).Nodup →
    resolveSecretNames b pre v = pathEntries pre (annotatedLeaves v)
  | .struct fs, pre, h => by
    have := resolveSecretNamesLoop_eq b fs pre [] (by simpa [annotatedLeaves, GoMap.keys] using h)
    simpa [resolveSecretNames, annotatedLeaves] using this
  | .leaf _, _, _ => by simp [resolveSecretNames, annotatedLeaves, pathEntries]
  | .nilPtr, _, _ => by simp [resolveSecretNames, annotatedLeaves, pathEntries]
  | .ptr _, _, _ => by simp [resolveSecretNames, annotatedLeaves, pathEntries]
theorem resolveSecretNamesLoop_eq (b : Bool) : ∀ (fs : Fields) (pre : List String)
    (secrets : GoMap String),
    (GoMap.keys secrets ++ GoMap.keys (pathEntries pre (annotatedLeavesOf fs))).Nodup →
    resolveSecretNamesLoop b pre fs secrets = secrets ++ pathEntries pre (annotatedLeavesOf fs)
  | .nil, pre, secrets, _ => by simp [resolveSecretNamesLoop, annotatedLeavesOf, pathEntries]
  | .cons sf (.struct fs) rest, pre, secrets, h =>
    loop_step_below b pre sf (.struct fs) rest fs secrets rfl
      (resolveSecretNames_eq b (.struct fs) _) (resolveSecretNamesLoop_eq b rest pre) h
  | .cons sf (.ptr (.struct fs)) rest, pre, secrets, h =>
    loop_step_below b pre sf (.ptr (.struct fs)) rest fs secrets rfl
      (resolveSecretNames_eq b (.struct fs) _) (resolveSecretNamesLoop_eq b rest pre) h
  | .cons sf (.leaf k) rest, pre, secrets, h =>
    loop_step_leaf b pre sf (.leaf k) rest secrets rfl (resolveSecretNamesLoop_eq b rest pre) h
  | .cons sf .nilPtr rest, pre, secrets, h =>
    loop_step_leaf b pre sf .nilPtr rest secrets rfl (resolveSecretNamesLoop_eq b rest pre) h
  | .cons sf (.ptr (.leaf k)) rest, pre, secrets, h =>
    loop_step_leaf b pre sf (.ptr (.leaf k)) rest secrets rfl (resolveSecretNamesLoop_eq b rest pre) h
  | .cons sf (.ptr .nilPtr) rest, pre, secrets, h =>
    loop_step_leaf b pre sf (.ptr .nilPtr) rest secrets rfl (resolveSecretNamesLoop_eq b rest pre) h
  | .cons sf (.ptr (.ptr e)) rest, pre, secrets, h =>
    loop_step_leaf b pre sf (.ptr (.ptr e)) rest secrets rfl (resolveSecretNamesLoop_eq b rest pre) h
end


theorem validateStruct_ok (cfg : Iface) (s : Value) (h : validateStruct cfg = .ok s) :
    ∃ fs, cfg = some (.ptr (.struct fs)) ∧ s = .struct fs ∧ validateStructLoop fs = .ok () := by
  cases cfg with
  | none => simp [validateStruct] at h
  | some v =>
    cases v with
    | leaf k => simp [validateStruct] at h
    | nilPtr => simp [validateStruct] at h
    | struct fs => simp [validateStruct] at h
    | ptr e =>
      cases e with
      | leaf k => simp [validateStruct, validateStructAt] at h
      | nilPtr => simp [validateStruct, validateStructAt] at h
      | ptr e2 => simp [validateStruct, validateStructAt] at h
      | struct fs =>
        refine ⟨fs, rfl, ?_⟩
        simp only [validateStruct, validateStructAt] at h
        cases hl : validateStructLoop fs with
        | ok u => rw [hl] at h; simp at h; exact ⟨h.symm, rfl⟩
        | error e => rw [hl] at h; simp at h
        | panic e => rw [hl] at h; simp at h

theorem validateStruct_nestedChain (last : StructField)
    (levels : List (StructField × StructField))
    (hlast : last.exported = true)
    (hlev : ∀ p ∈ levels, p.1.exported = true ∧ p.2.exported = true) :
    validateStructAt (nestedChain last levels) = .ok (nestedChain last levels) := by
  induction levels with
  | nil => simp [nestedChain, validateStructAt, validateStructLoop, validateField, hlast]
  | cons p rest ih =>
    obtain ⟨l, n⟩ := p
    have hp := hlev (l, n) (by simp)
    have ih' := ih (fun q hq => hlev q (by simp [hq]))
    simp only at hp
    cases hc : nestedChain last rest with
    | leaf k => cases rest with
      | nil => simp [nestedChain] at hc
      | cons q r => obtain ⟨a, b⟩ := q; simp [nestedChain] at hc
    | nilPtr => cases rest with
      | nil => simp [nestedChain] at hc
      | cons q r => obtain ⟨a, b⟩ := q; simp [nestedChain] at hc
    | ptr e => cases rest with
      | nil => simp [nestedChain] at hc
      | cons q r => obtain ⟨a, b⟩ := q; simp [nestedChain] at hc
    | struct fs =>
      rw [hc] at ih'
      simp [nestedChain, hc, validateStructAt, validateStructLoop, validateField, hp.1, hp.2] at ih' ⊢
      cases hl : validateStructLoop fs with
      | ok u => simp
      | error e => rw [hl] at ih'; simp at ih'
      | panic e => rw [hl] at ih'; simp at ih'

theorem annotatedLeaves_nestedChain (last : StructField)
    (levels : List (StructField × StructField))
    (hlast : last.tagGet gcpSecretTag ≠ "")
    (hlev : ∀ p ∈ levels, p.1.tagGet gcpSecretTag ≠ "") :
    (annotatedLeaves (nestedChain last levels)).length = levels.length + 1 := by
  induction levels with
  | nil => simp [nestedChain, annotatedLeaves, annotatedLeavesOf, hlast]
  | cons p rest ih =>
    obtain ⟨l, n⟩ := p
    have hp := hlev (l, n) (by simp)
    have ih' := ih (fun q hq => hlev q (by simp [hq]))
    simp only at hp
    have hb : ∃ fs, nestedChain last rest = .struct fs := by
      cases rest with
      | nil => exact ⟨_, rfl⟩
      | cons q r => obtain ⟨a, b⟩ := q; exact ⟨_, rfl⟩
    obtain ⟨fs, hfs⟩ := hb
    rw [hfs] at ih'
    simp only [nestedChain, hfs, annotatedLeaves]
    rw [annotatedLeavesOf_leaf l (.leaf .String) _ rfl,
      annotatedLeavesOf_below n (.struct fs) .nil fs rfl]
    simp only [hp, if_false, List.length_cons, List.length_append, List.length_map]
    simp only [annotatedLeaves] at ih'
    simp [annotatedLeavesOf, ih']

/-- C1. For every root accepted by validateStruct whose annotated leaf fields have
pairwise distinct paths, validateAndResolve returns a map with distinct keys whose
entries are exactly one entry per annotated leaf field (reached through struct fields
and non-nil pointer-to-struct fields): the key is the chain of koanf tags joined with
".", the value is the gcpsecret tag. In particular a chain of N nested structs, each
holding one annotated field, yields exactly N entries. -/
theorem validateAndResolve_entries :
    (∀ (cfg : Iface) (s : Value), validateStruct cfg = .ok s →
      (GoMap.keys (pathEntries [] (annotatedLeaves s))).Nodup →
      ∃ m, validateAndResolve cfg = .ok m ∧
        m.Perm (pathEntries [] (annotatedLeaves s)) ∧ (GoMap.keys m).Nodup) ∧
    (∀ (last : StructField) (levels : List (StructField × StructField)),
      last.exported = true → last.tagGet gcpSecretTag ≠ "" →
      (∀ p ∈ levels, p.1.exported = true ∧ p.2.exported = true ∧
        p.1.tagGet gcpSecretTag ≠ "") →
      (GoMap.keys (pathEntries [] (annotatedLeaves (nestedChain last levels)))).Nodup →
      ∃ m, validateAndResolve (some (.ptr (nestedChain last levels))) = .ok m ∧
        m.length = levels.length + 1) := by
  constructor
  · intro cfg s hacc hd
    refine ⟨pathEntries [] (annotatedLeaves s), ?_, List.Perm.refl _, hd⟩
    simp only [validateAndResolve, hacc]
    rw [resolveSecretNames_eq false s [] hd]
  · intro last levels hlast hsec hlev hd
    refine ⟨pathEntries [] (annotatedLeaves (nestedChain last levels)), ?_, ?_⟩
    · have hv := validateStruct_nestedChain last levels hlast
        (fun p hp => ⟨(hlev p hp).1, (hlev p hp).2.1⟩)
      simp only [validateAndResolve, validateStruct, hv]
      rw [resolveSecretNames_eq false _ [] hd]
    · simp only [pathEntries, List.length_map]
      exact annotatedLeaves_nestedChain last levels hsec (fun p hp => (hlev p hp).2.2)


theorem validateAndResolve_entries_witness :
    (validateStruct (some (.ptr (testCfgNested (.ptr testCfg)))) =
        .ok (testCfgNested (.ptr testCfg)) ∧
      (GoMap.keys (pathEntries [] (annotatedLeaves (testCfgNested (.ptr testCfg))))).Nodup ∧
      ∃ m, validateAndResolve (some (.ptr (testCfgNested (.ptr testCfg)))) = .ok m ∧
        m.Perm [("outer", "outer_gcp"), ("nested.simple", "gcp_simple")] ∧
        (GoMap.keys m).Nodup) ∧
    ∃ m, validateAndResolve (some (.ptr chainOfThree)) = .ok m ∧ m.length = 3 :=
  ⟨⟨by rfl, by decide,
    validateAndResolve_entries.1 (some (.ptr (testCfgNested (.ptr testCfg))))
      (testCfgNested (.ptr testCfg)) (by rfl) (by decide)⟩,
   validateAndResolve_entries.2 _ _ (by decide) (by decide) (by decide) (by decide)⟩

/-! ## The fetch stage -/

theorem contains_refl (s : String) : Contains s s := List.infix_refl _

theorem contains_append_left (s t sub : String) (h : Contains s sub) : Contains (s ++ t) sub := by
  unfold Contains at *
  rw [String.data_append]
  exact h.trans (List.infix_append' [] s.data t.data |>.trans (by simp))

theorem contains_append_right (s t sub : String) (h : Contains t sub) : Contains (s ++ t) sub := by
  unfold Contains at *
  rw [String.data_append]
  exact h.trans (List.suffix_append s.data t.data).isInfix

theorem contains_trans (s t u : String) (h1 : Contains s t) (h2 : Contains t u) : Contains s u :=
  List.IsInfix.trans h2 h1

theorem contains_Join (l : List String) (sep x : String) (hx : x ∈ l) :
    Contains (Join l sep) x := by
  induction l with
  | nil => simp at hx
  | cons a rest ih =>
    cases rest with
    | nil =>
      simp only [List.mem_singleton] at hx
      subst hx
      exact contains_refl _
    | cons b rest2 =>
      simp only [Join]
      rcases List.mem_cons.1 hx with h | h
      · subst h
        exact contains_append_left _ _ _ (contains_append_left _ _ _ (contains_refl _))
      · exact contains_append_right _ _ _ (ih h)

/-- The errors that the workers send on the channel for the entries `l`, in the
order in which the workers finish. -/
theorem getSecretsWorker_foldl (sm : SMConfig) (l : List (String × String))
    (st : GoMap String × List (String × String)) :
    ((l.map (fun kv => ({ koanfName := kv.1, gcpName := kv.2 } : koanfParams))).foldl
        (getSecretsWorker sm) st).2 =
      st.2 ++ l.filterMap (fun kv =>
        match getLatestSecretVersion sm.client sm.config.Project kv.2 with
        | .error err => some (err, kv.2)
        | .ok _ => none) := by
  induction l generalizing st with
  | nil => simp
  | cons kv rest ih =>
    simp only [List.map_cons, List.foldl_cons]
    rw [ih]
    cases h : getLatestSecretVersion sm.client sm.config.Project kv.2 with
    | error err => simp [getSecretsWorker, h, List.filterMap_cons]
    | ok v => simp [getSecretsWorker, h, List.filterMap_cons]

theorem getSecrets_calls_perm (sched : Schedule) (sm : SMConfig) (m : GoMap String) :
    (getSecrets sched sm m).calls.Perm (m.map Prod.snd) := by
  simp only [getSecrets, List.map_map]
  exact (sched.perm m).map _

/-- C2. For every request map, store and order of completion, getSecrets calls the
store once for every entry, and if the store fails for at least one entry it returns
an error and no map, and the message contains the secret identifier and the error
text of every failing entry. -/
theorem getSecrets_all_or_nothing (sched : Schedule) (sm : SMConfig) (m : GoMap String) :
    (getSecrets sched sm m).calls.Perm (m.map Prod.snd) ∧
    ((∃ e ∈ m, ∃ err, getLatestSecretVersion sm.client sm.config.Project e.2 = .error err) →
      ∃ msg, (getSecrets sched sm m).result = .error msg ∧
        ∀ e ∈ m, ∀ err, getLatestSecretVersion sm.client sm.config.Project e.2 = .error err →
          Contains msg e.2 ∧ Contains msg err) := by
  constructor
  · exact getSecrets_calls_perm sched sm m
  · rintro ⟨e0, he0, err0, hfail0⟩
    have hchan := getSecretsWorker_foldl sm (sched.run m) ([], [])
    simp only [List.nil_append] at hchan
    have hmem : ∀ e ∈ m, ∀ err,
        getLatestSecretVersion sm.client sm.config.Project e.2 = .error err →
        (e.2 ++ ": " ++ err) ∈ (((sched.run m).map
          (fun kv => ({ koanfName := kv.1, gcpName := kv.2 } : koanfParams))).foldl
            (getSecretsWorker sm) ([], [])).2.map (fun e => e.2 ++ ": " ++ e.1) := by
      intro e he err hfail
      rw [hchan]
      refine List.mem_map.2 ⟨(err, e.2), ?_, rfl⟩
      refine List.mem_filterMap.2 ⟨e, (sched.perm m).mem_iff.2 he, ?_⟩
      simp [hfail]
    have hne := hmem e0 he0 err0 hfail0
    refine ⟨"Error when fetching secrets: " ++ Join ((((sched.run m).map
          (fun kv => ({ koanfName := kv.1, gcpName := kv.2 } : koanfParams))).foldl
            (getSecretsWorker sm) ([], [])).2.map (fun e => e.2 ++ ": " ++ e.1)) ", ", ?_, ?_⟩
    · simp only [getSecrets]
      rw [if_pos]
      intro hlen
      rw [List.length_eq_zero] at hlen
      rw [hlen] at hne
      simp at hne
    · intro e he err hfail
      have hin := contains_Join _ ", " _ (hmem e he err hfail)
      have hmsg := contains_append_right "Error when fetching secrets: " _ _ hin
      constructor
      · exact contains_trans _ _ _ hmsg
          (contains_append_left _ _ _ (contains_append_left _ _ _ (contains_refl _)))
      · exact contains_trans _ _ _ hmsg (contains_append_right _ _ _ (contains_refl _))


theorem getSecrets_all_or_nothing_witness :
    ∃ msg, (getSecrets Schedule.backwards (scenarioSM scenarioFailingClient [])
        [("simple", "S1"), ("nested.inner", "S2")]).result = .error msg ∧
      Contains msg "S2" ∧ Contains msg "not found" := by
  obtain ⟨msg, hmsg, hall⟩ := (getSecrets_all_or_nothing Schedule.backwards
    (scenarioSM scenarioFailingClient []) [("simple", "S1"), ("nested.inner", "S2")]).2
    ⟨("nested.inner", "S2"), by decide, "not found", by rfl⟩
  exact ⟨msg, hmsg, hall ("nested.inner", "S2") (by decide) "not found" (by rfl)⟩

/-! ## The tree merger -/

namespace GoMap

theorem get_set_self {β : Type} (m : GoMap β) (k : String) (v : β) :
    get (set m k v) k = some v := by
  induction m with
  | nil => simp [set, get]
  | cons e rest ih =>
    obtain ⟨k', v'⟩ := e
    by_cases h : k' = k
    · simp [set, get, h]
    · simp [set, get, h, ih]

theorem get_set_ne {β : Type} (m : GoMap β) (k k' : String) (v : β) (h : k' ≠ k) :
    get (set m k v) k' = get m k' := by
  induction m with
  | nil => simp [set, get, Ne.symm h]
  | cons e rest ih =>
    obtain ⟨k0, v0⟩ := e
    by_cases h0 : k0 = k
    · subst h0
      simp [set, get, Ne.symm h]
    · by_cases h1 : k0 = k'
      · subst h1
        simp [set, get, h0]
      · simp [set, get, h0, h1, ih]

end GoMap

theorem leafAt_nil (m : GoMap Node) : leafAt [] m = none := rfl

theorem leafAt_single (x : String) (m : GoMap Node) :
    leafAt [x] m = match GoMap.get m x with
      | some (.str v) => some v
      | _ => none := rfl

theorem leafAt_cons_cons (x y : String) (r : List String) (m : GoMap Node) :
    leafAt (x :: y :: r) m = match GoMap.get m x with
      | some (.sub n) => leafAt (y :: r) n
      | _ => none := rfl

theorem leafAt_empty (q : List String) : leafAt q [] = none := by
  cases q with
  | nil => rfl
  | cons x r =>
    cases r with
    | nil => simp [leafAt_single, GoMap.get]
    | cons y r2 => simp [leafAt_cons_cons, GoMap.get]

/-- Setting a leaf at a path none of whose proper prefixes is a leaf: the path then
leads to the new leaf, the paths below it lead nowhere, all others are unchanged. -/
theorem leafAt_insertPath (v : String) : ∀ (segs : List String), segs ≠ [] →
    ∀ (m : GoMap Node), (∀ p, p <+: segs → p ≠ segs → leafAt p m = none) →
    ∀ q, leafAt q (insertPath segs v m) =
      if q = segs then some v else if segs <+: q then none else leafAt q m
  | [], h, _, _, _ => absurd rfl h
  | [last], _, m, _, q => by
    simp only [insertPath]
    cases q with
    | nil => simp [leafAt_nil]
    | cons x r =>
      cases r with
      | nil =>
        by_cases hx : x = last
        · subst hx; simp [leafAt_single, GoMap.get_set_self]
        · have hx' : ¬ last = x := fun h => hx h.symm
          simp [leafAt_single, GoMap.get_set_ne _ _ _ _ hx, hx, hx']
      | cons y r2 =>
        by_cases hx : x = last
        · subst hx
          simp [leafAt_cons_cons, GoMap.get_set_self, List.cons_prefix_cons]
        · have hx' : ¬ last = x := fun h => hx h.symm
          simp [leafAt_cons_cons, GoMap.get_set_ne _ _ _ _ hx, hx, hx', List.cons_prefix_cons]
  | seg :: s2 :: r, _, m, H, q => by
    have ih := leafAt_insertPath v (s2 :: r) (by simp)
    cases hg : GoMap.get m seg with
    | none =>
      have e : insertPath (seg :: s2 :: r) v m =
          GoMap.set m seg (.sub (insertPath (s2 :: r) v [])) := by
        simp [insertPath, hg]
      rw [e]
      have ih0 := ih [] (fun p _ _ => leafAt_empty p)
      cases q with
      | nil => simp [leafAt_nil]
      | cons x q' =>
        by_cases hx : x = seg
        · subst hx
          cases q' with
          | nil => simp [leafAt_single, GoMap.get_set_self, hg, List.cons_prefix_cons]
          | cons y r2 =>
            rw [leafAt_cons_cons, GoMap.get_set_self]
            simp only
            rw [ih0 (y :: r2), leafAt_cons_cons, hg, leafAt_empty]
            simp [List.cons_prefix_cons]
        · have hx' : ¬ seg = x := fun h => hx h.symm
          cases q' with
          | nil => simp [leafAt_single, GoMap.get_set_ne _ _ _ _ hx, hx, hx']
          | cons y r2 =>
            simp [leafAt_cons_cons, GoMap.get_set_ne _ _ _ _ hx, hx, hx',
              List.cons_prefix_cons]
    | some nd =>
      cases nd with
      | str w =>
        have := H [seg] (by simp [List.cons_prefix_cons]) (by simp)
        simp [leafAt_single, hg] at this
      | sub n =>
        have e : insertPath (seg :: s2 :: r) v m =
            GoMap.set m seg (.sub (insertPath (s2 :: r) v n)) := by
          simp [insertPath, hg]
        rw [e]
        have ihn := ih n (by
          intro p hp hne
          cases p with
          | nil => rfl
          | cons y p2 =>
            have := H (seg :: y :: p2) (by simpa [List.cons_prefix_cons] using hp)
              (by simpa using hne)
            simpa [leafAt_cons_cons, hg] using this)
        cases q with
        | nil => simp [leafAt_nil]
        | cons x q' =>
          by_cases hx : x = seg
          · subst hx
            cases q' with
            | nil => simp [leafAt_single, GoMap.get_set_self, hg, List.cons_prefix_cons]
            | cons y r2 =>
              rw [leafAt_cons_cons, GoMap.get_set_self]
              simp only
              rw [ihn (y :: r2), leafAt_cons_cons, hg]
              simp [List.cons_prefix_cons]
          · have hx' : ¬ seg = x := fun h => hx h.symm
            cases q' with
            | nil => simp [leafAt_single, GoMap.get_set_ne _ _ _ _ hx, hx, hx']
            | cons y r2 =>
              simp [leafAt_cons_cons, GoMap.get_set_ne _ _ _ _ hx, hx, hx',
                List.cons_prefix_cons]


theorem splitChars_ne_nil (sep : List Char) : ∀ (l : List Char) (skip : Nat),
    splitChars sep skip l ≠ []
  | [], skip => by cases skip <;> simp [splitChars]
  | c :: cs, skip + 1 => by
    simp only [splitChars]
    exact splitChars_ne_nil sep cs skip
  | c :: cs, 0 => by
    simp only [splitChars]
    split
    · simp
    · split <;> simp

theorem unsplitDot_splitChars : ∀ l : List Char, unsplitDot (splitChars ['.'] 0 l) = l
  | [] => rfl
  | c :: cs => by
    have ih := unsplitDot_splitChars cs
    simp only [splitChars]
    by_cases hc : c = '.'
    · subst hc
      have hne := splitChars_ne_nil ['.'] cs 0
      simp only [List.isPrefixOf, List.length_singleton, Nat.sub_self]
      cases hs : splitChars ['.'] 0 cs with
      | nil => exact absurd hs hne
      | cons a rest =>
        rw [hs] at ih
        simp [unsplitDot, ih]
    · have hp : List.isPrefixOf ['.'] (c :: cs) = false := by
        simp [List.isPrefixOf, Ne.symm hc]
      simp only [hp]
      cases hs : splitChars ['.'] 0 cs with
      | nil => exact absurd hs (splitChars_ne_nil ['.'] cs 0)
      | cons a rest =>
        rw [hs] at ih
        cases rest with
        | nil => simp [unsplitDot] at ih ⊢; exact ih
        | cons b rest2 => simp [unsplitDot] at ih ⊢; exact ih

theorem Split_dot (s : String) : Split s "." = (splitChars ['.'] 0 s.data).map String.mk := by
  simp [Split]

theorem Split_dot_ne_nil (s : String) : Split s "." ≠ [] := by
  rw [Split_dot]
  simpa using splitChars_ne_nil ['.'] s.data 0

theorem Split_dot_injective (a b : String) (h : Split a "." = Split b ".") : a = b := by
  rw [Split_dot, Split_dot] at h
  have hinj : Function.Injective String.mk := fun x y hxy => by
    simpa using congrArg String.data hxy
  have h2 := List.map_injective_iff.2 hinj h
  have h3 := congrArg unsplitDot h2
  rw [unsplitDot_splitChars, unsplitDot_splitChars] at h3
  exact String.ext h3

theorem GoMap.eq_of_mem_of_nodup {β : Type} (m : GoMap β) (h : (GoMap.keys m).Nodup)
    (k : String) (v w : β) (hv : (k, v) ∈ m) (hw : (k, w) ∈ m) : v = w := by
  induction m with
  | nil => simp at hv
  | cons e rest ih =>
    obtain ⟨k0, v0⟩ := e
    simp only [GoMap.keys, List.map_cons, List.nodup_cons, List.mem_map, not_exists,
      not_and] at h
    rcases List.mem_cons.1 hv with h1 | h1 <;> rcases List.mem_cons.1 hw with h2 | h2
    · simp only [Prod.mk.injEq] at h1 h2
      rw [h1.2, h2.2]
    · simp only [Prod.mk.injEq] at h1
      exact absurd h1.1 (h.1 (k, w) h2)
    · simp only [Prod.mk.injEq] at h2
      exact absurd h2.1 (h.1 (k, v) h1)
    · exact ih h.2 h1 h2

/-- The leaves of the tree after the loop of `Unflatten` has set the entries `L`,
starting from a tree whose leaves are the entries `S`. -/
theorem leafAt_foldl_insertPath : ∀ (L S : List (String × String)) (t : GoMap Node),
    (∀ q v, leafAt q t = some v ↔ ∃ k, (k, v) ∈ S ∧ Split k "." = q) →
    (∀ a ∈ S ++ L, ∀ b ∈ S ++ L, Split a.1 "." <+: Split b.1 "." → a = b) →
    ∀ q v, leafAt q (L.foldl (fun out kv => insertPath (Split kv.1 ".") kv.2 out) t) = some v ↔
      ∃ k, (k, v) ∈ S ++ L ∧ Split k "." = q
  | [], S, t, hinv, _ => by simpa using hinv
  | e :: rest, S, t, hinv, hpf => by
    have hstep : ∀ q v, leafAt q (insertPath (Split e.1 ".") e.2 t) = some v ↔
        ∃ k, (k, v) ∈ S ++ [e] ∧ Split k "." = q := by
      have hH : ∀ p, p <+: Split e.1 "." → p ≠ Split e.1 "." → leafAt p t = none := by
        intro p hp hne
        cases hl : leafAt p t with
        | none => rfl
        | some x =>
          obtain ⟨k, hk, hkp⟩ := (hinv p x).1 hl
          have := hpf (k, x) (by simp [hk]) e (by simp) (by simpa [hkp] using hp)
          rw [← this] at hne
          exact absurd hkp.symm hne
      intro q v
      rw [leafAt_insertPath e.2 (Split e.1 ".") (Split_dot_ne_nil _) t hH q]
      by_cases hq : q = Split e.1 "."
      · simp only [hq, if_true, Option.some.injEq]
        constructor
        · intro hv
          exact ⟨e.1, by simp [← hv], rfl⟩
        · rintro ⟨k, hk, hks⟩
          have := hpf (k, v) (by
              rcases List.mem_append.1 hk with h | h
              · simp [h]
              · simp only [List.mem_singleton] at h; simp [h]) e (by simp)
            (by simp [hks])
          rw [← this]
      · simp only [hq, if_false]
        by_cases hpre : Split e.1 "." <+: q
        · simp only [hpre, if_true]
          constructor
          · intro h; cases h
          · rintro ⟨k, hk, hks⟩
            exfalso
            have := hpf e (by simp) (k, v) (by
              rcases List.mem_append.1 hk with h | h
              · simp [h]
              · simp only [List.mem_singleton] at h; simp [h]) (by simpa [hks] using hpre)
            rw [this] at hq
            exact hq hks.symm
        · simp only [hpre, if_false]
          rw [hinv q v]
          constructor
          · rintro ⟨k, hk, hks⟩
            exact ⟨k, by simp [hk], hks⟩
          · rintro ⟨k, hk, hks⟩
            rcases List.mem_append.1 hk with h | h
            · exact ⟨k, h, hks⟩
            · simp only [List.mem_singleton] at h
              rw [← h] at hq
              exact absurd hks.symm hq
    have := leafAt_foldl_insertPath rest (S ++ [e]) _ hstep (by simpa using hpf)
    simpa using this

theorem Split_ne_nil (s delim : String) (h : delim ≠ "") : Split s delim ≠ [] := by
  have hd : delim.data ≠ [] := fun hd => h (String.ext hd)
  simp only [Split, hd, if_false]
  simpa using splitChars_ne_nil delim.data s.data 0

/-- The loop of `Unflatten` does not panic when every key splits into at least one
segment, and is then the loop that sets the entries one after the other. -/
theorem unflattenStep_foldl (delim : String) : ∀ (l : List (String × String))
    (tree : GoMap Node), (∀ kv ∈ l, Split kv.1 delim ≠ []) →
    l.foldl (unflattenStep delim) (.ok tree) =
      .ok (l.foldl (fun out kv => insertPath (Split kv.1 delim) kv.2 out) tree)
  | [], _, _ => rfl
  | kv :: rest, tree, h => by
    have hkv := h kv (by simp)
    simp only [List.foldl_cons]
    have hstep : unflattenStep delim (.ok tree) kv =
        .ok (insertPath (Split kv.1 delim) kv.2 tree) := by
      unfold unflattenStep
      cases hs : Split kv.1 delim with
      | nil => exact absurd hs hkv
      | cons seg r => rfl
    rw [hstep]
    exact unflattenStep_foldl delim rest _ (fun e he => h e (by simp [he]))

theorem Unflatten_ok (sched : Schedule) (flat : GoMap String) (delim : String)
    (h : delim ≠ "") :
    Unflatten sched flat delim =
      .ok ((sched.run flat).foldl (fun out kv => insertPath (Split kv.1 delim) kv.2 out) []) :=
  unflattenStep_foldl delim (sched.run flat) [] (fun kv _ => Split_ne_nil kv.1 delim h)

theorem leafAt_Unflatten (sched : Schedule) (flat : GoMap String)
    (hnd : (GoMap.keys flat).Nodup) (hpf : PrefixFree (GoMap.keys flat) ".") :
    ∃ t, Unflatten sched flat "." = .ok t ∧
      ∀ (q : List String) (v : String),
        leafAt q t = some v ↔ ∃ k, (k, v) ∈ flat ∧ Split k "." = q := by
  have hperm := sched.perm flat
  refine ⟨_, Unflatten_ok sched flat "." (by decide), ?_⟩
  intro q v
  have := leafAt_foldl_insertPath (sched.run flat) [] []
    (by intro q v; simp [leafAt_empty])
    (by
      intro a ha b hb hab
      simp only [List.nil_append] at ha hb
      have ha' := hperm.mem_iff.1 ha
      have hb' := hperm.mem_iff.1 hb
      have hk := hpf a.1 (List.mem_map.2 ⟨a, ha', rfl⟩) b.1 (List.mem_map.2 ⟨b, hb', rfl⟩) hab
      obtain ⟨ka, va⟩ := a
      obtain ⟨kb, vb⟩ := b
      simp only at hk
      subst hk
      rw [GoMap.eq_of_mem_of_nodup flat hnd ka va vb ha' hb'])
    q v
  rw [this]
  simp only [List.nil_append]
  constructor
  · rintro ⟨k, hk, hks⟩; exact ⟨k, hperm.mem_iff.1 hk, hks⟩
  · rintro ⟨k, hk, hks⟩; exact ⟨k, hperm.mem_iff.2 hk, hks⟩

/-! ## Well-formedness of the maps -/

namespace GoMap

theorem keys_set {β : Type} (m : GoMap β) (k : String) (v : β) :
    keys (set m k v) = if k ∈ keys m then keys m else keys m ++ [k] := by
  induction m with
  | nil => simp [set, keys]
  | cons e rest ih =>
    obtain ⟨k0, v0⟩ := e
    by_cases h : k0 = k
    · subst h; simp [set, keys]
    · have h' : ¬ k = k0 := fun hh => h hh.symm
      simp only [set, h, if_false]
      simp only [keys, List.map_cons, List.mem_cons, h', false_or] at ih ⊢
      rw [ih]
      split <;> simp

theorem nodup_keys_set {β : Type} (m : GoMap β) (k : String) (v : β)
    (h : (keys m).Nodup) : (keys (set m k v)).Nodup := by
  rw [keys_set]
  split
  · exact h
  · rename_i hk
    exact List.nodup_append.2 ⟨h, by simp, by
      intro a ha hb
      simp only [List.mem_singleton] at hb
      subst hb
      exact hk ha⟩

theorem nodup_keys_setAll {β : Type} (l m : GoMap β) (h : (keys m).Nodup) :
    (keys (l.foldl (fun acc kv => set acc kv.1 kv.2) m)).Nodup := by
  induction l generalizing m with
  | nil => simpa using h
  | cons e rest ih => exact ih _ (nodup_keys_set m e.1 e.2 h)

theorem delete_eq_filter {β : Type} (m : GoMap β) (k : String) :
    delete m k = m.filter (fun e => decide (e.1 ≠ k)) := by
  induction m with
  | nil => rfl
  | cons e rest ih =>
    obtain ⟨k0, v0⟩ := e
    by_cases h : k0 = k
    · simp [delete, h, ih]
    · simp [delete, h, ih]

theorem foldl_delete_eq_filter {β : Type} (ks : List String) (m : GoMap β) :
    ks.foldl delete m = m.filter (fun e => decide (e.1 ∉ ks)) := by
  induction ks generalizing m with
  | nil => simp
  | cons k rest ih =>
    simp only [List.foldl_cons]
    rw [ih, delete_eq_filter, List.filter_filter]
    congr 1
    funext e
    by_cases h1 : e.1 = k <;> by_cases h2 : e.1 ∈ rest <;> simp [h1, h2]

theorem get_eq_some_iff {β : Type} (m : GoMap β) (h : (keys m).Nodup) (k : String) (v : β) :
    get m k = some v ↔ (k, v) ∈ m := by
  induction m with
  | nil => simp [get]
  | cons e rest ih =>
    obtain ⟨k0, v0⟩ := e
    simp only [keys, List.map_cons, List.nodup_cons, List.mem_map, not_exists, not_and] at h
    by_cases hk : k0 = k
    · subst hk
      simp only [get, if_true, Option.some.injEq, List.mem_cons, Prod.mk.injEq, true_and]
      constructor
      · intro hv; exact Or.inl hv.symm
      · rintro (hv | hv)
        · exact hv.symm
        · exact absurd rfl (h.1 (k0, v) hv)
    · have hk' : ¬ k = k0 := fun hh => hk hh.symm
      simp only [get, hk, if_false, List.mem_cons, Prod.mk.injEq, hk', false_and, false_or]
      exact ih h.2

end GoMap

theorem nodup_keys_resolveSecretNamesLoop (b : Bool) : ∀ (fs : Fields) (pre : List String)
    (secrets : GoMap String), (GoMap.keys secrets).Nodup →
    (GoMap.keys (resolveSecretNamesLoop b pre fs secrets)).Nodup
  | .nil, pre, secrets, h => by simpa [resolveSecretNamesLoop] using h
  | .cons sf v rest, pre, secrets, h => by
    cases hv : v.structBelow with
    | none =>
      rw [resolveSecretNamesLoop_leaf b pre sf v rest secrets hv]
      split
      · exact nodup_keys_resolveSecretNamesLoop b rest pre secrets h
      · exact nodup_keys_resolveSecretNamesLoop b rest pre _ (GoMap.nodup_keys_set _ _ _ h)
    | some fs =>
      rw [resolveSecretNamesLoop_below b pre sf v rest secrets fs hv]
      exact nodup_keys_resolveSecretNamesLoop b rest pre _ (GoMap.nodup_keys_setAll _ _ h)

theorem nodup_keys_resolveSecretNames (b : Bool) (pre : List String) (v : Value) :
    (GoMap.keys (resolveSecretNames b pre v)).Nodup := by
  cases v with
  | struct fs =>
    simp only [resolveSecretNames]
    exact nodup_keys_resolveSecretNamesLoop b fs pre [] (by simp [GoMap.keys])
  | leaf k => simp [resolveSecretNames, GoMap.keys]
  | nilPtr => simp [resolveSecretNames, GoMap.keys]
  | ptr e => simp [resolveSecretNames, GoMap.keys]

theorem nodup_keys_validateAndResolve (cfg : Iface) (m : GoMap String)
    (h : validateAndResolve cfg = .ok m) : (GoMap.keys m).Nodup := by
  simp only [validateAndResolve] at h
  cases hs : validateStruct cfg with
  | ok s =>
    rw [hs] at h
    simp only [Result.ok.injEq] at h
    rw [← h]
    exact nodup_keys_resolveSecretNames false [] s
  | error e => rw [hs] at h; simp at h
  | panic e => rw [hs] at h; simp at h


/-! ## The values fetched -/

/-- The values that the workers store in `res` for the entries `l`. -/
theorem getSecretsWorker_foldl_res (sm : SMConfig) (l : List (String × String))
    (st : GoMap String × List (String × String))
    (h : (GoMap.keys st.1 ++ GoMap.keys l).Nodup) :
    ((l.map (fun kv => ({ koanfName := kv.1, gcpName := kv.2 } : koanfParams))).foldl
        (getSecretsWorker sm) st).1 =
      st.1 ++ l.filterMap (fun kv =>
        match getLatestSecretVersion sm.client sm.config.Project kv.2 with
        | .ok s => some (kv.1, s)
        | .error _ => none) := by
  induction l generalizing st with
  | nil => simp
  | cons kv rest ih =>
    simp only [List.map_cons, List.foldl_cons]
    have hk : kv.1 ∉ GoMap.keys st.1 := by
      intro hmem
      exact ((List.nodup_append.1 h).2.2 hmem (by simp [GoMap.keys])).elim
    have hrest : (GoMap.keys st.1 ++ GoMap.keys rest).Nodup := by
      have h' : (GoMap.keys st.1 ++ (kv.1 :: GoMap.keys rest)).Nodup := by
        simpa [GoMap.keys] using h
      exact (List.nodup_cons.1 (List.nodup_middle.1 h')).2
    cases hf : getLatestSecretVersion sm.client sm.config.Project kv.2 with
    | error err =>
      rw [ih]
      · simp [getSecretsWorker, hf, List.filterMap_cons]
      · simpa [getSecretsWorker, hf] using hrest
    | ok s =>
      rw [ih]
      · simp [getSecretsWorker, hf, List.filterMap_cons, GoMap.set_of_not_mem _ _ _ hk]
      · simp only [getSecretsWorker, hf]
        rw [GoMap.set_of_not_mem _ _ _ hk]
        simpa [GoMap.keys] using h

theorem keys_filterMap_sublist (f : String → Option String) (l : GoMap String) :
    (GoMap.keys (l.filterMap (fun kv => (f kv.2).map (fun s => (kv.1, s))))).Sublist
      (GoMap.keys l) := by
  induction l with
  | nil => simp [GoMap.keys]
  | cons kv rest ih =>
    simp only [List.filterMap_cons, GoMap.keys, List.map_cons]
    cases f kv.2 with
    | none => exact List.Sublist.cons _ (by simpa [GoMap.keys] using ih)
    | some s => exact List.Sublist.cons₂ _ (by simpa [GoMap.keys] using ih)

/-- When every fetch succeeds `getSecrets` returns the value of every entry. -/
theorem getSecrets_ok (sched : Schedule) (sm : SMConfig) (m : GoMap String)
    (hnd : (GoMap.keys m).Nodup)
    (hfetch : ∀ e ∈ m, ∃ v, getLatestSecretVersion sm.client sm.config.Project e.2 = .ok v) :
    ∃ res, (getSecrets sched sm m).result = .ok res ∧ (GoMap.keys res).Nodup ∧
      ∀ k v, (k, v) ∈ res ↔
        ∃ id, (k, id) ∈ m ∧ getLatestSecretVersion sm.client sm.config.Project id = .ok v := by
  have hperm := sched.perm m
  have hndL : (GoMap.keys (sched.run m)).Nodup := (hperm.map Prod.fst).nodup_iff.2 hnd
  have hchan := getSecretsWorker_foldl sm (sched.run m) ([], [])
  have hres := getSecretsWorker_foldl_res sm (sched.run m) ([], [])
    (by simpa [GoMap.keys] using hndL)
  simp only [List.nil_append] at hchan hres
  have hnone : (sched.run m).filterMap (fun kv =>
        match getLatestSecretVersion sm.client sm.config.Project kv.2 with
        | .error err => some (err, kv.2)
        | .ok _ => none) = [] := by
    rw [List.filterMap_eq_nil_iff]
    intro e he
    obtain ⟨v, hv⟩ := hfetch e (hperm.mem_iff.1 he)
    simp [hv]
  rw [hnone] at hchan
  refine ⟨(sched.run m).filterMap (fun kv =>
        match getLatestSecretVersion sm.client sm.config.Project kv.2 with
        | .ok s => some (kv.1, s)
        | .error _ => none), ?_, ?_, ?_⟩
  · simp only [getSecrets, hchan, List.map_nil, List.length_nil, ne_eq, not_true_eq_false,
      if_false]
    rw [hres]
  · have hfun : (fun kv : String × String =>
        match getLatestSecretVersion sm.client sm.config.Project kv.2 with
        | .ok s => some (kv.1, s)
        | .error _ => none) =
        (fun kv => ((fun id => match getLatestSecretVersion sm.client sm.config.Project id with
          | .ok s => some s
          | .error _ => none) kv.2).map (fun s => (kv.1, s))) := by
      funext kv
      cases hf : getLatestSecretVersion sm.client sm.config.Project kv.2 <;> simp [hf]
    rw [hfun]
    exact (keys_filterMap_sublist (fun id =>
      match getLatestSecretVersion sm.client sm.config.Project id with
      | .ok s => some s
      | .error _ => none) (sched.run m)).nodup hndL
  · intro k v
    rw [List.mem_filterMap]
    constructor
    · rintro ⟨e, he, hev⟩
      cases hf : getLatestSecretVersion sm.client sm.config.Project e.2 with
      | error err => rw [hf] at hev; simp at hev
      | ok s =>
        rw [hf] at hev
        simp only [Option.some.injEq, Prod.mk.injEq] at hev
        refine ⟨e.2, ?_, ?_⟩
        · rw [← hev.1]; exact hperm.mem_iff.1 he
        · rw [hf, hev.2]
    · rintro ⟨id, hmem, hf⟩
      exact ⟨(k, id), hperm.mem_iff.2 hmem, by simp [hf]⟩

/-- C3 (amended). For every schema accepted by validateAndResolve, skip list and store
for which every fetch of a remaining entry succeeds, with the identity key remap and
the delimiter ".", and with no remaining path a segment-wise prefix of another, Read
returns no error and a nested map in which a path, followed segment by segment, leads
to a leaf with value v if and only if the path is in the request map, is not skipped,
and the store returned v for its secret identifier. -/
theorem Read_tree (usched sched : Schedule) (sm : SMConfig) (m : GoMap String)
    (hvalid : validateAndResolve sm.target = .ok m)
    (hcb : ∀ cb, sm.cb = some cb → ∀ s, cb s = s)
    (hdelim : sm.config.Delim = ".")
    (hfetch : ∀ e ∈ m, e.1 ∉ sm.config.SkipKeys →
      ∃ v, getLatestSecretVersion sm.client sm.config.Project e.2 = .ok v)
    (hpf : PrefixFree ((GoMap.keys m).filter (fun k => decide (k ∉ sm.config.SkipKeys))) ".") :
    ∃ t, (sm.Read (Unflatten usched) sched).result = .ok t ∧
      ∀ p v, leafAt (Split p ".") t = some v ↔
        ∃ id, GoMap.get m p = some id ∧ p ∉ sm.config.SkipKeys ∧
          getLatestSecretVersion sm.client sm.config.Project id = .ok v := by
  have hndm := nodup_keys_validateAndResolve sm.target m hvalid
  obtain ⟨target, htarget⟩ : ∃ target, sm.target = some target := by
    cases ht : sm.target with
    | none => rw [ht] at hvalid; simp [validateAndResolve, validateStruct] at hvalid
    | some target => exact ⟨target, rfl⟩
  rw [htarget] at hvalid
  have hstf : sm.config.SkipKeys.foldl GoMap.delete m =
      m.filter (fun e => decide (e.1 ∉ sm.config.SkipKeys)) := GoMap.foldl_delete_eq_filter _ _
  have hndstf : (GoMap.keys (sm.config.SkipKeys.foldl GoMap.delete m)).Nodup := by
    rw [hstf]
    exact ((List.filter_sublist m).map Prod.fst).nodup hndm
  obtain ⟨res, hres, hndres, hmemres⟩ := getSecrets_ok sched sm
    (sm.config.SkipKeys.foldl GoMap.delete m) hndstf (by
      intro e he
      rw [hstf, List.mem_filter] at he
      exact hfetch e he.1 (by simpa using he.2))
  have hmp : sm.flatMap sched res = sched.run res := by
    have hf : (fun (mp : GoMap String) (kv : String × String) =>
        match sm.cb with
        | some cb => GoMap.set mp (cb kv.1) kv.2
        | none => GoMap.set mp kv.1 kv.2) = (fun acc kv => GoMap.set acc kv.1 kv.2) := by
      funext mp kv
      cases hc : sm.cb with
      | none => rfl
      | some cb => simp [hcb cb hc]
    unfold SMConfig.flatMap
    rw [hf, GoMap.setAll_of_nodup]
    · simp
    · simpa [GoMap.keys] using ((sched.perm res).map Prod.fst).nodup_iff.2 hndres
  have hmemrun : ∀ k w, (k, w) ∈ sched.run res ↔ (k, w) ∈ res :=
    fun k w => (sched.perm res).mem_iff
  obtain ⟨t, ht, hleaf⟩ := leafAt_Unflatten usched (sched.run res)
    (((sched.perm res).map Prod.fst).nodup_iff.2 hndres) (by
      intro a ha b hb hab
      have hin : ∀ x ∈ GoMap.keys (sched.run res),
          x ∈ (GoMap.keys m).filter (fun k => decide (k ∉ sm.config.SkipKeys)) := by
        intro x hx
        obtain ⟨⟨k, w⟩, hkw, rfl⟩ := List.mem_map.1 hx
        obtain ⟨id, hid, _⟩ := (hmemres k w).1 ((hmemrun k w).1 hkw)
        rw [hstf, List.mem_filter] at hid
        exact List.mem_filter.2 ⟨List.mem_map.2 ⟨(k, id), hid.1, rfl⟩, by simpa using hid.2⟩
      exact hpf a (hin a ha) b (hin b hb) hab)
  refine ⟨t, ?_, ?_⟩
  · simp only [SMConfig.Read, htarget, hvalid, hres, hmp, hdelim, ht]
  · intro p v
    rw [hleaf]
    constructor
    · rintro ⟨k, hk, hks⟩
      have hkp := Split_dot_injective k p hks
      subst hkp
      obtain ⟨id, hid, hf⟩ := (hmemres k v).1 ((hmemrun k v).1 hk)
      rw [hstf, List.mem_filter] at hid
      exact ⟨id, (GoMap.get_eq_some_iff m hndm k id).2 hid.1, by simpa using hid.2, hf⟩
    · rintro ⟨id, hget, hskip, hf⟩
      refine ⟨p, (hmemrun p v).2 ((hmemres p v).2 ⟨id, ?_, hf⟩), rfl⟩
      rw [hstf, List.mem_filter]
      exact ⟨(GoMap.get_eq_some_iff m hndm p id).1 hget, by simpa using hskip⟩


theorem Read_tree_witness :
    (SMConfig.Read (Unflatten Schedule.inOrder) Schedule.inOrder
        (scenarioSM scenarioClient [])).result =
      .ok [("simple", .str "a"), ("nested", .sub [("inner", .str "b")])] ∧
    PrefixFree ((GoMap.keys [("simple", "S1"), ("nested.inner", "S2")]).filter
      (fun k => decide (k ∉ (scenarioSM scenarioClient []).config.SkipKeys))) "." ∧
    ∃ t, (SMConfig.Read (Unflatten Schedule.backwards) Schedule.backwards
        (scenarioSM scenarioClient [])).result = .ok t ∧
      ∀ p v, leafAt (Split p ".") t = some v ↔
        ∃ id, GoMap.get [("simple", "S1"), ("nested.inner", "S2")] p = some id ∧
          p ∉ (scenarioSM scenarioClient []).config.SkipKeys ∧
          getLatestSecretVersion (scenarioSM scenarioClient []).client
            (scenarioSM scenarioClient []).config.Project id = .ok v :=
  ⟨by rfl, by decide,
   Read_tree Schedule.backwards Schedule.backwards (scenarioSM scenarioClient [])
    [("simple", "S1"), ("nested.inner", "S2")] (by rfl)
    (by intro cb h s; cases h; rfl) (by rfl)
    (by
      intro e he _
      simp only [List.mem_cons, List.mem_singleton, List.not_mem_nil, or_false] at he
      rcases he with rfl | rfl
      · exact ⟨"a", by rfl⟩
      · exact ⟨"b", by rfl⟩)
    (by decide)⟩

/-- C3, as stated, fails: the schema `conflictSchema` is accepted, its request map
holds the paths "a" and "a.b", and no nested map has a leaf at both. -/
theorem Read_tree_counterexample :
    validateAndResolve (some (.ptr conflictSchema)) = .ok [("a", "S1"), ("a.b", "S2")] ∧
    ¬ ∃ t : GoMap Node, ∀ p v, leafAt (Split p ".") t = some v ↔
      ∃ id, GoMap.get [("a", "S1"), ("a.b", "S2")] p = some id ∧ p ∉ ([] : List String) ∧
        getLatestSecretVersion scenarioClient "p" id = .ok v := by
  refine ⟨by decide, ?_⟩
  rintro ⟨t, ht⟩
  have h1 := (ht "a" "a").2 ⟨"S1", by decide, by simp, by rfl⟩
  have h2 := (ht "a.b" "b").2 ⟨"S2", by decide, by simp, by rfl⟩
  have e1 : Split "a" "." = ["a"] := by decide
  have e2 : Split "a.b" "." = ["a", "b"] := by decide
  rw [e1, leafAt_single] at h1
  rw [e2, leafAt_cons_cons] at h2
  cases hg : GoMap.get t "a" with
  | none => rw [hg] at h1; simp at h1
  | some nd =>
    cases nd with
    | str w => rw [hg] at h2; simp at h2
    | sub n => rw [hg] at h1; simp at h1

/-! ## Validation -/

/-- C4. An unexported field behind a non-nil pointer to a struct is not found by
validateStruct: validateAndResolve returns a request map holding the field, while the
same struct held directly, not behind a pointer, is rejected with an error; an
unexported field whose value is a struct makes validateStruct panic. -/
theorem validateAndResolve_unexported_behind_pointer :
    validateAndResolve (some (.ptr (nestedRoot (.ptr hiddenSecret)))) =
      .ok [("nested.secret", "S")] ∧
    validateAndResolve (some (.ptr (nestedRoot hiddenSecret))) =
      .error ("field string is not valid - check if field is value and that it is " ++
        "exported from struct") ∧
    validateAndResolve (some (.ptr hiddenStructRoot)) =
      .panic ("reflect.Value.Interface: cannot return value obtained from " ++
        "unexported field or method") := by
  refine ⟨by decide, by decide, by decide⟩

/-- The result of `validateStruct` for a pointer to a struct is decided by the loop
over the fields. -/
theorem validateStruct_ptr_struct (fs : Fields) :
    validateStruct (some (.ptr (.struct fs))) =
      match validateStructLoop fs with
      | .ok _ => .ok (.struct fs)
      | .error e => .error e
      | .panic e => .panic e := by
  simp [validateStruct, validateStructAt]

/-- C6 (amended). For every argument other than the nil interface that is not a
non-nil pointer to a struct (a non-pointer value, a pointer to a value that is not a
struct, a nil pointer) validateAndResolve returns an error and no map, without a
panic and whatever the fields of the value; for a non-nil pointer to a struct the
root check passes and the loop over the fields decides. A nil interface is rejected
with an error by Read before validateAndResolve is called. -/
theorem validateAndResolve_root_check :
    (∀ v : Value, (∀ fs, v ≠ .ptr (.struct fs)) →
      validateAndResolve (some v) =
        .error ("cfg argument must be a pointer to a struct, got:" ++ v.Kind.String) ∨
      validateAndResolve (some v) =
        .error ("cfg argument must be a pointer to a struct, got: " ++ v.ElemKind.String)) ∧
    (∀ fs : Fields, validateAndResolve (some (.ptr (.struct fs))) =
      match validateStructLoop fs with
      | .ok _ => .ok (resolveSecretNames false [] (.struct fs))
      | .error e => .error e
      | .panic e => .panic e) ∧
    (∀ unflatten sched sm, sm.target = none →
      SMConfig.Read unflatten sched sm =
        { calls := [], result := .error "no secret id  provided" }) := by
  refine ⟨?_, ?_, ?_⟩
  · intro v hv
    cases v with
    | leaf k => left; simp [validateAndResolve, validateStruct]
    | struct fs => left; simp [validateAndResolve, validateStruct]
    | nilPtr => right; simp [validateAndResolve, validateStruct]
    | ptr e =>
      right
      cases e with
      | leaf k => simp [validateAndResolve, validateStruct, validateStructAt, Value.ElemKind]
      | nilPtr => simp [validateAndResolve, validateStruct, validateStructAt, Value.ElemKind]
      | ptr e2 => simp [validateAndResolve, validateStruct, validateStructAt, Value.ElemKind]
      | struct fs => exact absurd rfl (hv fs)
  · intro fs
    simp only [validateAndResolve, validateStruct_ptr_struct]
    cases validateStructLoop fs <;> rfl
  · intro unflatten sched sm h
    simp [SMConfig.Read, h]

theorem validateAndResolve_root_check_witness :
    (∀ fs, Value.struct (.cons (stringField "A" []) (.leaf .String) .nil) ≠ .ptr (.struct fs)) ∧
    (validateAndResolve (some (.struct (.cons (stringField "A" []) (.leaf .String) .nil))) =
        .error ("cfg argument must be a pointer to a struct, got:" ++
          (Value.struct (.cons (stringField "A" []) (.leaf .String) .nil)).Kind.String) ∨
      validateAndResolve (some (.struct (.cons (stringField "A" []) (.leaf .String) .nil))) =
        .error ("cfg argument must be a pointer to a struct, got: " ++
          (Value.struct (.cons (stringField "A" []) (.leaf .String) .nil)).ElemKind.String)) :=
  ⟨(fun fs h => by cases h),
   validateAndResolve_root_check.1 _ (fun fs h => by cases h)⟩

/-- C6, as stated, fails for the nil interface: validateAndResolve panics. -/
theorem validateAndResolve_nil_interface :
    validateAndResolve none =
      .panic "runtime error: invalid memory address or nil pointer dereference" ∧
    (∀ msg, validateAndResolve none ≠ .error msg) := by
  constructor
  · rfl
  · intro msg h
    simp [validateAndResolve, validateStruct] at h


/-! ## Fields that contribute nothing -/

theorem validateStructLoop_congr (sf : StructField) (v : Value) (r1 r2 : Fields)
    (h : validateStructLoop r1 = validateStructLoop r2) :
    validateStructLoop (.cons sf v r1) = validateStructLoop (.cons sf v r2) := by
  cases v with
  | leaf k => simp [validateStructLoop, h]
  | nilPtr => simp [validateStructLoop, h]
  | ptr e => simp [validateStructLoop, h]
  | struct fs => simp [validateStructLoop, h]

theorem validateStructLoop_removeAt : ∀ (fs : Fields) (p : List Nat) (sf : StructField),
    fs.fieldAt p = some (sf, .nilPtr) → sf.exported = true →
    validateStructLoop (fs.removeAt p) = validateStructLoop fs
  | .nil, _, _, h, _ => by simp [Fields.fieldAt] at h
  | .cons _ _ _, [], _, h, _ => by simp [Fields.fieldAt] at h
  | .cons sf0 v rest, [0], sf, h, hexp => by
    simp only [Fields.fieldAt, Option.some.injEq, Prod.mk.injEq] at h
    obtain ⟨h1, h2⟩ := h
    subst h1 h2
    simp [Fields.removeAt, validateStructLoop, validateField, hexp]
  | .cons sf0 v rest, (i + 1) :: p, sf, h, hexp => by
    simp only [Fields.fieldAt] at h
    simp only [Fields.removeAt]
    exact validateStructLoop_congr sf0 v _ _
      (validateStructLoop_removeAt rest (i :: p) sf h hexp)
  | .cons sf0 (.struct fs) rest, 0 :: j :: p, sf, h, hexp => by
    simp only [Fields.fieldAt] at h
    have ih := validateStructLoop_removeAt fs (j :: p) sf h hexp
    simp only [Fields.removeAt, validateStructLoop, validateStructAt, ih]
    cases validateStructLoop fs <;> rfl
  | .cons sf0 (.ptr (.struct fs)) rest, 0 :: j :: p, sf, h, hexp => by
    simp [Fields.removeAt, validateStructLoop]
  | .cons sf0 (.leaf k) rest, 0 :: j :: p, sf, h, hexp => by simp [Fields.fieldAt] at h
  | .cons sf0 .nilPtr rest, 0 :: j :: p, sf, h, hexp => by simp [Fields.fieldAt] at h
  | .cons sf0 (.ptr (.leaf k)) rest, 0 :: j :: p, sf, h, hexp => by simp [Fields.fieldAt] at h
  | .cons sf0 (.ptr .nilPtr) rest, 0 :: j :: p, sf, h, hexp => by simp [Fields.fieldAt] at h
  | .cons sf0 (.ptr (.ptr e)) rest, 0 :: j :: p, sf, h, hexp => by simp [Fields.fieldAt] at h

theorem resolveSecretNamesLoop_congr (b : Bool) (pre : List String) (sf : StructField)
    (v : Value) (r1 r2 : Fields)
    (h : ∀ secrets, resolveSecretNamesLoop b pre r1 secrets =
      resolveSecretNamesLoop b pre r2 secrets) (secrets : GoMap String) :
    resolveSecretNamesLoop b pre (.cons sf v r1) secrets =
      resolveSecretNamesLoop b pre (.cons sf v r2) secrets := by
  cases hv : v.structBelow with
  | none =>
    rw [resolveSecretNamesLoop_leaf b pre sf v r1 secrets hv,
      resolveSecretNamesLoop_leaf b pre sf v r2 secrets hv]
    split <;> exact h _
  | some fs =>
    rw [resolveSecretNamesLoop_below b pre sf v r1 secrets fs hv,
      resolveSecretNamesLoop_below b pre sf v r2 secrets fs hv]
    exact h _

theorem resolveSecretNamesLoop_removeAt (b : Bool) : ∀ (fs : Fields) (p : List Nat)
    (sf : StructField), fs.fieldAt p = some (sf, .nilPtr) → sf.tagGet gcpSecretTag = "" →
    ∀ (pre : List String) (secrets : GoMap String),
    resolveSecretNamesLoop b pre (fs.removeAt p) secrets =
      resolveSecretNamesLoop b pre fs secrets
  | .nil, _, _, h, _ => by simp [Fields.fieldAt] at h
  | .cons _ _ _, [], _, h, _ => by simp [Fields.fieldAt] at h
  | .cons sf0 v rest, [0], sf, h, htag => by
    simp only [Fields.fieldAt, Option.some.injEq, Prod.mk.injEq] at h
    obtain ⟨h1, h2⟩ := h
    subst h1 h2
    intro pre secrets
    simp [Fields.removeAt, resolveSecretNamesLoop, htag]
  | .cons sf0 v rest, (i + 1) :: p, sf, h, htag => by
    simp only [Fields.fieldAt] at h
    intro pre secrets
    simp only [Fields.removeAt]
    exact resolveSecretNamesLoop_congr b pre sf0 v _ _
      (fun s => resolveSecretNamesLoop_removeAt b rest (i :: p) sf h htag pre s) secrets
  | .cons sf0 (.struct fs) rest, 0 :: j :: p, sf, h, htag => by
    simp only [Fields.fieldAt] at h
    intro pre secrets
    have ih := resolveSecretNamesLoop_removeAt b fs (j :: p) sf h htag
    simp only [Fields.removeAt, resolveSecretNamesLoop, resolveSecretNames, ih]
  | .cons sf0 (.ptr (.struct fs)) rest, 0 :: j :: p, sf, h, htag => by
    simp only [Fields.fieldAt] at h
    intro pre secrets
    have ih := resolveSecretNamesLoop_removeAt b fs (j :: p) sf h htag
    simp only [Fields.removeAt, resolveSecretNamesLoop, resolveSecretNames, ih]
  | .cons sf0 (.leaf k) rest, 0 :: j :: p, sf, h, _ => by simp [Fields.fieldAt] at h
  | .cons sf0 .nilPtr rest, 0 :: j :: p, sf, h, _ => by simp [Fields.fieldAt] at h
  | .cons sf0 (.ptr (.leaf k)) rest, 0 :: j :: p, sf, h, _ => by simp [Fields.fieldAt] at h
  | .cons sf0 (.ptr .nilPtr) rest, 0 :: j :: p, sf, h, _ => by simp [Fields.fieldAt] at h
  | .cons sf0 (.ptr (.ptr e)) rest, 0 :: j :: p, sf, h, _ => by simp [Fields.fieldAt] at h

theorem validateAndResolve_ptr_struct (fs : Fields) :
    validateAndResolve (some (.ptr (.struct fs))) =
      match validateStructLoop fs with
      | .ok _ => .ok (resolveSecretNamesLoop false [] fs [])
      | .error e => .error e
      | .panic e => .panic e := by
  simp only [validateAndResolve, validateStruct_ptr_struct]
  cases validateStructLoop fs <;> simp [resolveSecretNames]

/-- C5 (amended). For every root struct and every exported field of it, at any depth
the walk reaches, whose value is a nil pointer and that carries no gcpsecret tag,
validateAndResolve gives the same outcome, error or map, as for the schema with that
field removed: the field causes no error and contributes no entry. -/
theorem validateAndResolve_nil_pointer (fs : Fields) (path : List Nat) (sf : StructField)
    (hfield : fs.fieldAt path = some (sf, .nilPtr)) (hexp : sf.exported = true)
    (htag : sf.tagGet gcpSecretTag = "") :
    validateAndResolve (some (.ptr (.struct fs))) =
      validateAndResolve (some (.ptr (.struct (fs.removeAt path)))) := by
  rw [validateAndResolve_ptr_struct, validateAndResolve_ptr_struct,
    validateStructLoop_removeAt fs path sf hfield hexp,
    resolveSecretNamesLoop_removeAt false fs path sf hfield htag]

theorem validateAndResolve_nil_pointer_witness :
    testCfgNilPointerFields.fieldAt [1] =
      some ({ name := "Nested", typeName := "", exported := true,
              tag := [("koanf", "nested")] }, .nilPtr) ∧
    validateAndResolve (some (.ptr (.struct testCfgNilPointerFields))) =
      .ok [("outer", "outer_gcp")] ∧
    validateAndResolve (some (.ptr (.struct testCfgNilPointerFields))) =
      validateAndResolve (some (.ptr (.struct (testCfgNilPointerFields.removeAt [1])))) :=
  ⟨by rfl, by rfl,
   validateAndResolve_nil_pointer testCfgNilPointerFields [1] _ (by rfl) (by rfl) (by rfl)⟩

/-- C5, as stated, fails: a nil pointer field that carries a gcpsecret tag contributes
an entry, which the schema without the field does not have. -/
theorem validateAndResolve_tagged_nil_pointer :
    taggedNilPointerFields.fieldAt [0] =
      some ({ name := "Nested", typeName := "", exported := true,
              tag := [("koanf", "nested"), ("gcpsecret", "X")] }, .nilPtr) ∧
    validateAndResolve (some (.ptr (.struct taggedNilPointerFields))) =
      .ok [("nested", "X")] ∧
    validateAndResolve (some (.ptr (.struct (taggedNilPointerFields.removeAt [0])))) =
      .ok [] := by
  refine ⟨by rfl, by rfl, by rfl⟩


/-! ## The skip filter -/

theorem GoMap.get_filter_keys {β : Type} (m : GoMap β) (p : String → Bool) (k : String) :
    GoMap.get (m.filter (fun e => p e.1)) k = if p k then GoMap.get m k else none := by
  induction m with
  | nil => simp [GoMap.get]
  | cons e rest ih =>
    obtain ⟨k0, v0⟩ := e
    by_cases hp : p k0 = true
    · by_cases hk : k0 = k
      · subst hk; simp [List.filter_cons, hp, GoMap.get]
      · simp [List.filter_cons, hp, GoMap.get, hk, ih]
    · by_cases hk : k0 = k
      · subst hk; simp [List.filter_cons, hp, GoMap.get, ih]
      · simp [List.filter_cons, hp, GoMap.get, hk, ih]

/-- C7. The map that Read passes to getSecrets is the request map without the skip
keys: it holds a key k if and only if k is in the request map and is not a skip key,
with the identifier it had; the remote calls of Read are those of getSecrets on this
map, one for the identifier of every entry that is not skipped. -/
theorem Read_skips_keys (unflatten : GoMap String → String → Except String (GoMap Node))
    (sched : Schedule)
    (sm : SMConfig) (m : GoMap String) (hvalid : validateAndResolve sm.target = .ok m) :
    (∀ k, GoMap.get (sm.config.SkipKeys.foldl GoMap.delete m) k =
      if k ∈ sm.config.SkipKeys then none else GoMap.get m k) ∧
    (sm.Read unflatten sched).calls =
      (getSecrets sched sm (sm.config.SkipKeys.foldl GoMap.delete m)).calls ∧
    (sm.Read unflatten sched).calls.Perm
      ((m.filter (fun e => decide (e.1 ∉ sm.config.SkipKeys))).map Prod.snd) := by
  obtain ⟨target, htarget⟩ : ∃ target, sm.target = some target := by
    cases ht : sm.target with
    | none => rw [ht] at hvalid; simp [validateAndResolve, validateStruct] at hvalid
    | some target => exact ⟨target, rfl⟩
  rw [htarget] at hvalid
  have hcalls : (sm.Read unflatten sched).calls =
      (getSecrets sched sm (sm.config.SkipKeys.foldl GoMap.delete m)).calls := by
    simp only [SMConfig.Read, htarget, hvalid]
    cases hr : (getSecrets sched sm (sm.config.SkipKeys.foldl GoMap.delete m)).result with
    | error e => rfl
    | panic e => rfl
    | ok res =>
      simp only
      cases unflatten (sm.flatMap sched res) sm.config.Delim <;> rfl
  refine ⟨?_, hcalls, ?_⟩
  · intro k
    rw [GoMap.foldl_delete_eq_filter,
      GoMap.get_filter_keys m (fun x => decide (x ∉ sm.config.SkipKeys)) k]
    by_cases hk : k ∈ sm.config.SkipKeys <;> simp [hk]
  · rw [hcalls, ← GoMap.foldl_delete_eq_filter]
    exact getSecrets_calls_perm sched sm _

theorem Read_skips_keys_witness :
    validateAndResolve (scenarioSM scenarioClient ["simple"]).target =
      .ok [("simple", "S1"), ("nested.inner", "S2")] ∧
    (SMConfig.Read (Unflatten Schedule.inOrder) Schedule.inOrder
      (scenarioSM scenarioClient ["simple"])).calls = ["S2"] ∧
    (SMConfig.Read (Unflatten Schedule.inOrder) Schedule.inOrder
      (scenarioSM scenarioClient ["simple"])).calls.Perm
        (([("simple", "S1"), ("nested.inner", "S2")].filter
          (fun e => decide (e.1 ∉ (scenarioSM scenarioClient ["simple"]).config.SkipKeys))).map
            Prod.snd) :=
  ⟨by rfl, by rfl,
   (Read_skips_keys (Unflatten Schedule.inOrder) Schedule.inOrder
    (scenarioSM scenarioClient ["simple"]) [("simple", "S1"), ("nested.inner", "S2")]
    (by rfl)).2.2⟩

/-! ## The size of the pool -/

/-- C8 (amended). The size handed to the worker pool in getSecrets is
Config.Concurrency whenever that is positive, for a provider built by Provider and
for one built by ProviderWithClient; for a provider built by Provider it is the
default 50 when Config.Concurrency is zero, and Config.Concurrency itself, unchanged,
when that is negative. -/
theorem poolSize_of_provider :
    (∀ (newClient : Except String Client) (cfg : Config) (target : Iface)
        (cb : Option (String → String)) (sm : SMConfig) (sched : Schedule) (m : GoMap String),
      Provider newClient cfg target cb = .ok sm →
      (getSecrets sched sm m).poolSize =
        if cfg.Concurrency = 0 then defaultConcurrency else cfg.Concurrency) ∧
    (∀ (cfg : Config) (cb : Option (String → String)) (client : Client) (sched : Schedule)
        (m : GoMap String),
      0 < cfg.Concurrency →
      (getSecrets sched (ProviderWithClient cfg cb client) m).poolSize = cfg.Concurrency) := by
  constructor
  · intro newClient cfg target cb sm sched m h
    cases newClient with
    | error e => simp [Provider] at h
    | ok client =>
      simp only [Provider, Result.ok.injEq] at h
      subst h
      by_cases hd : cfg.Delim = "" <;> by_cases hc : cfg.Concurrency = 0 <;>
        simp [getSecrets, hd, hc]
  · intro cfg cb client sched m _
    simp [getSecrets, ProviderWithClient]

theorem poolSize_of_provider_witness :
    (Provider (.ok scenarioClient) (configWithConcurrency 0) none none =
        .ok { client := scenarioClient, config := configWithConcurrency 50, target := none,
              cb := none } ∧
      (getSecrets Schedule.inOrder
        { client := scenarioClient, config := configWithConcurrency 50, target := none,
          cb := none } []).poolSize =
        if (configWithConcurrency 0).Concurrency = 0 then defaultConcurrency
        else (configWithConcurrency 0).Concurrency) ∧
    ((0 : Int) < (configWithConcurrency 7).Concurrency ∧
      (getSecrets Schedule.inOrder (ProviderWithClient (configWithConcurrency 7) none
        scenarioClient) []).poolSize = (configWithConcurrency 7).Concurrency) :=
  ⟨⟨by rfl, poolSize_of_provider.1 (.ok scenarioClient) (configWithConcurrency 0) none none _
      Schedule.inOrder [] (by rfl)⟩,
   ⟨by decide, poolSize_of_provider.2 (configWithConcurrency 7) none scenarioClient
      Schedule.inOrder [] (by decide)⟩⟩

/-- C8, as stated, fails: a negative Config.Concurrency given to Provider reaches the
pool unchanged, not as the default 50. -/
theorem poolSize_negative :
    Provider (.ok scenarioClient) (configWithConcurrency (-1)) none none =
      .ok { client := scenarioClient, config := configWithConcurrency (-1), target := none,
            cb := none } ∧
    (getSecrets Schedule.inOrder
      { client := scenarioClient, config := configWithConcurrency (-1), target := none,
        cb := none } []).poolSize = -1 ∧
    (-1 : Int) ≠ defaultConcurrency := by
  refine ⟨by rfl, by rfl, by decide⟩

/-! ## The merge step -/

theorem leafAt_append_none : ∀ (q : List String) (t : GoMap Node) (v : String),
    leafAt q t = some v → ∀ r, r ≠ [] → leafAt (q ++ r) t = none
  | [], t, v, h, _, _ => by simp [leafAt_nil] at h
  | [x], t, v, h, r, hr => by
    cases r with
    | nil => exact absurd rfl hr
    | cons y r2 =>
      rw [leafAt_single] at h
      simp only [List.singleton_append, leafAt_cons_cons]
      cases hg : GoMap.get t x with
      | none => rfl
      | some nd =>
        cases nd with
        | str w => rfl
        | sub n => rw [hg] at h; simp at h
  | x :: y :: q2, t, v, h, r, hr => by
    rw [leafAt_cons_cons] at h
    simp only [List.cons_append, leafAt_cons_cons]
    cases hg : GoMap.get t x with
    | none => rfl
    | some nd =>
      cases nd with
      | str w => rfl
      | sub n =>
        rw [hg] at h
        exact leafAt_append_none (y :: q2) n v h r hr

theorem Read_result_of_fetched (unflatten : GoMap String → String → Except String (GoMap Node))
    (sched : Schedule) (sm : SMConfig) (m res : GoMap String)
    (hvalid : validateAndResolve sm.target = .ok m)
    (hres : (getSecrets sched sm (sm.config.SkipKeys.foldl GoMap.delete m)).result = .ok res) :
    (sm.Read unflatten sched).result =
      match unflatten (sm.flatMap sched res) sm.config.Delim with
      | .ok tree => .ok tree
      | .error p => .panic p := by
  obtain ⟨target, htarget⟩ : ∃ target, sm.target = some target := by
    cases ht : sm.target with
    | none => rw [ht] at hvalid; simp [validateAndResolve, validateStruct] at hvalid
    | some target => exact ⟨target, rfl⟩
  rw [htarget] at hvalid
  simp only [SMConfig.Read, htarget, hvalid, hres]
  cases unflatten (sm.flatMap sched res) sm.config.Delim <;> rfl

/-- C9 (amended). For every flat mapping of resolved path keys to values in which one
key is a proper segment-wise prefix of another key, the merge step of Read does not
fail with an error: Read returns what maps.Unflatten yields on the delimiter, the
nested map it builds together with a nil error, or its panic; for a non-empty
delimiter maps.Unflatten yields a map, so Read returns a map. In a nested map no path
is both a leaf and a composite: below a path that leads to a leaf no path leads to a
leaf. -/
theorem Read_merge_never_fails
    (unflatten : GoMap String → String → Except String (GoMap Node))
    (usched sched : Schedule) (sm : SMConfig) (m res : GoMap String)
    (hvalid : validateAndResolve sm.target = .ok m)
    (hres : (getSecrets sched sm (sm.config.SkipKeys.foldl GoMap.delete m)).result = .ok res)
    (_hconflict : ∃ a ∈ GoMap.keys (sm.flatMap sched res),
      ∃ b ∈ GoMap.keys (sm.flatMap sched res),
        a ≠ b ∧ Split a sm.config.Delim <+: Split b sm.config.Delim) :
    ((sm.Read unflatten sched).result =
      match unflatten (sm.flatMap sched res) sm.config.Delim with
      | .ok tree => .ok tree
      | .error p => .panic p) ∧
    (∀ msg, (sm.Read unflatten sched).result ≠ .error msg) ∧
    (sm.config.Delim ≠ "" → ∃ t, (sm.Read (Unflatten usched) sched).result = .ok t) ∧
    (∀ (t : GoMap Node) (q r : List String) (v : String),
      leafAt q t = some v → r ≠ [] → leafAt (q ++ r) t = none) := by
  refine ⟨Read_result_of_fetched unflatten sched sm m res hvalid hres, ?_, ?_,
    fun t q r v h hr => leafAt_append_none q t v h r hr⟩
  · intro msg h
    rw [Read_result_of_fetched unflatten sched sm m res hvalid hres] at h
    cases hu : unflatten (sm.flatMap sched res) sm.config.Delim with
    | ok tree => rw [hu] at h; cases h
    | error p => rw [hu] at h; cases h
  · intro hd
    rw [Read_result_of_fetched (Unflatten usched) sched sm m res hvalid hres,
      Unflatten_ok usched _ _ hd]
    exact ⟨_, rfl⟩

theorem Read_merge_never_fails_witness :
    validateAndResolve conflictSM.target = .ok [("a", "S1"), ("a.b", "S2")] ∧
    (getSecrets Schedule.inOrder conflictSM
      (conflictSM.config.SkipKeys.foldl GoMap.delete [("a", "S1"), ("a.b", "S2")])).result =
        .ok [("a", "a"), ("a.b", "b")] ∧
    (∃ a ∈ GoMap.keys (conflictSM.flatMap Schedule.inOrder [("a", "a"), ("a.b", "b")]),
      ∃ b ∈ GoMap.keys (conflictSM.flatMap Schedule.inOrder [("a", "a"), ("a.b", "b")]),
        a ≠ b ∧ Split a conflictSM.config.Delim <+: Split b conflictSM.config.Delim) ∧
    ((∀ msg, (SMConfig.Read (Unflatten Schedule.inOrder) Schedule.inOrder conflictSM).result ≠
        .error msg) ∧
      (conflictSM.config.Delim ≠ "" →
        ∃ t, (SMConfig.Read (Unflatten Schedule.backwards) Schedule.inOrder conflictSM).result =
          .ok t)) :=
  ⟨by rfl, by rfl, ⟨"a", by decide, "a.b", by decide, by decide, by decide⟩,
   ⟨(Read_merge_never_fails (Unflatten Schedule.inOrder) Schedule.backwards
      Schedule.inOrder conflictSM [("a", "S1"), ("a.b", "S2")] [("a", "a"), ("a.b", "b")]
      (by rfl) (by rfl) ⟨"a", by decide, "a.b", by decide, by decide, by decide⟩).2.1,
    (Read_merge_never_fails (Unflatten Schedule.inOrder) Schedule.backwards
      Schedule.inOrder conflictSM [("a", "S1"), ("a.b", "S2")] [("a", "a"), ("a.b", "b")]
      (by rfl) (by rfl) ⟨"a", by decide, "a.b", by decide, by decide, by decide⟩).2.2.1⟩⟩

/-- C9, as stated, fails: the flat values of `conflictSchema` hold the keys "a" and
"a.b", and Read returns a map and no error; whatever `maps.Unflatten` yields, Read
returns no error. -/
theorem Read_conflicting_paths :
    (getSecrets Schedule.inOrder conflictSM [("a", "S1"), ("a.b", "S2")]).result =
      .ok [("a", "a"), ("a.b", "b")] ∧
    Split "a" "." <+: Split "a.b" "." ∧
    (∃ t, (SMConfig.Read (Unflatten Schedule.inOrder) Schedule.inOrder conflictSM).result =
      .ok t) ∧
    (∀ (unflatten : GoMap String → String → Except String (GoMap Node)) (msg : String),
      (SMConfig.Read unflatten Schedule.inOrder conflictSM).result ≠ .error msg) := by
  refine ⟨by rfl, by decide, ⟨_, by rfl⟩, ?_⟩
  intro unflatten msg h
  have hmp := Read_result_of_fetched unflatten Schedule.inOrder conflictSM
    [("a", "S1"), ("a.b", "S2")] [("a", "a"), ("a.b", "b")] (by rfl) (by rfl)
  rw [hmp] at h
  cases hu : unflatten (conflictSM.flatMap Schedule.inOrder [("a", "a"), ("a.b", "b")])
      conflictSM.config.Delim with
  | ok tree => rw [hu] at h; cases h
  | error p => rw [hu] at h; cases h

/-- With the empty delimiter and the empty key the merge step panics, and Read with
it. -/
theorem Read_empty_delimiter_panics :
    validateAndResolve emptyDelimSM.target = .ok [("", "S1")] ∧
    (SMConfig.Read (Unflatten Schedule.inOrder) Schedule.inOrder emptyDelimSM).result =
      .panic "runtime error: slice bounds out of range [:-1]" := by
  refine ⟨by rfl, by rfl⟩

/-! ## Fields without a koanf tag -/

theorem GoMap.mem_keys_set {β : Type} (m : GoMap β) (k k' : String) (v : β) :
    k ∈ GoMap.keys (GoMap.set m k' v) ↔ k = k' ∨ k ∈ GoMap.keys m := by
  rw [GoMap.keys_set]
  split
  · rename_i h
    constructor
    · intro hk; exact Or.inr hk
    · rintro (hk | hk)
      · rw [hk]; exact h
      · exact hk
  · simp only [List.mem_append, List.mem_singleton]
    constructor
    · rintro (hk | hk)
      · exact Or.inr hk
      · exact Or.inl hk
    · rintro (hk | hk)
      · exact Or.inr hk
      · exact Or.inl hk

theorem GoMap.mem_keys_setAll {β : Type} (l m : GoMap β) (k : String) :
    k ∈ GoMap.keys (l.foldl (fun acc kv => GoMap.set acc kv.1 kv.2) m) ↔
      k ∈ GoMap.keys m ∨ k ∈ GoMap.keys l := by
  induction l generalizing m with
  | nil => simp [GoMap.keys]
  | cons e rest ih =>
    simp only [List.foldl_cons]
    rw [ih, GoMap.mem_keys_set]
    simp only [GoMap.keys, List.map_cons, List.mem_cons]
    constructor
    · rintro ((h | h) | h)
      · exact Or.inr (Or.inl h)
      · exact Or.inl h
      · exact Or.inr (Or.inr h)
    · rintro (h | h | h)
      · exact Or.inl (Or.inr h)
      · exact Or.inl (Or.inl h)
      · exact Or.inr h

/-- One step of the loop at a field the walk does not descend into, for the keys. -/
theorem keys_loop_step_leaf (b : Bool) (pre : List String) (sf : StructField) (v : Value)
    (rest : Fields) (secrets : GoMap String) (k : String) (hv : v.structBelow = none)
    (ih : ∀ (secrets0 : GoMap String) (k0 : String),
      (k0 ∈ GoMap.keys secrets0 ∨ k0 ∈ GoMap.keys (pathEntries pre (annotatedLeavesOf rest))) →
      k0 ∈ GoMap.keys (resolveSecretNamesLoop b pre rest secrets0))
    (h : k ∈ GoMap.keys secrets ∨
      k ∈ GoMap.keys (pathEntries pre (annotatedLeavesOf (.cons sf v rest)))) :
    k ∈ GoMap.keys (resolveSecretNamesLoop b pre (.cons sf v rest) secrets) := by
  rw [resolveSecretNamesLoop_leaf b pre sf v rest secrets hv]
  rw [annotatedLeavesOf_leaf sf v rest hv] at h
  by_cases hg : sf.tagGet gcpSecretTag = ""
  · simp only [hg, if_true] at h ⊢
    exact ih secrets k h
  · simp only [hg, if_false] at h ⊢
    apply ih
    rw [GoMap.mem_keys_set]
    simp only [GoMap.keys, pathEntries, List.map_cons, List.mem_cons] at h
    rcases h with h | h | h
    · exact Or.inl (Or.inr h)
    · exact Or.inl (Or.inl h)
    · exact Or.inr (by simpa [GoMap.keys, pathEntries] using h)

mutual
theorem keys_resolveSecretNames (b : Bool) : ∀ (v : Value) (pre : List String) (k : String),
    k ∈ GoMap.keys (pathEntries pre (annotatedLeaves v)) →
    k ∈ GoMap.keys (resolveSecretNames b pre v)
  | .struct fs, pre, k, h => by
    simp only [resolveSecretNames]
    exact keys_resolveSecretNamesLoop b fs pre [] k (Or.inr (by simpa [annotatedLeaves] using h))
  | .leaf _, _, _, h => by simp [annotatedLeaves, pathEntries, GoMap.keys] at h
  | .nilPtr, _, _, h => by simp [annotatedLeaves, pathEntries, GoMap.keys] at h
  | .ptr _, _, _, h => by simp [annotatedLeaves, pathEntries, GoMap.keys] at h
theorem keys_resolveSecretNamesLoop (b : Bool) : ∀ (fs : Fields) (pre : List String)
    (secrets : GoMap String) (k : String),
    (k ∈ GoMap.keys secrets ∨ k ∈ GoMap.keys (pathEntries pre (annotatedLeavesOf fs))) →
    k ∈ GoMap.keys (resolveSecretNamesLoop b pre fs secrets)
  | .nil, pre, secrets, k, h => by
    rcases h with h | h
    · simpa [resolveSecretNamesLoop] using h
    · simp [annotatedLeavesOf, pathEntries, GoMap.keys] at h
  | .cons sf (.struct fs) rest, pre, secrets, k, h => by
    rw [resolveSecretNamesLoop_below b pre sf (.struct fs) rest secrets fs rfl]
    apply keys_resolveSecretNamesLoop b rest pre _ k
    rw [annotatedLeavesOf_below sf (.struct fs) rest fs rfl, pathEntries_append,
      pathEntries_nest] at h
    rw [GoMap.mem_keys_setAll]
    simp only [GoMap.keys, List.map_append, List.mem_append] at h
    rcases h with h | h | h
    · exact Or.inl (Or.inl h)
    · exact Or.inl (Or.inr (keys_resolveSecretNames b (.struct fs) _ k
        (by simpa [annotatedLeaves, GoMap.keys] using h)))
    · exact Or.inr h
  | .cons sf (.ptr (.struct fs)) rest, pre, secrets, k, h => by
    rw [resolveSecretNamesLoop_below b pre sf (.ptr (.struct fs)) rest secrets fs rfl]
    apply keys_resolveSecretNamesLoop b rest pre _ k
    rw [annotatedLeavesOf_below sf (.ptr (.struct fs)) rest fs rfl, pathEntries_append,
      pathEntries_nest] at h
    rw [GoMap.mem_keys_setAll]
    simp only [GoMap.keys, List.map_append, List.mem_append] at h
    rcases h with h | h | h
    · exact Or.inl (Or.inl h)
    · exact Or.inl (Or.inr (keys_resolveSecretNames b (.struct fs) _ k
        (by simpa [annotatedLeaves, GoMap.keys] using h)))
    · exact Or.inr h
  | .cons sf (.leaf kd) rest, pre, secrets, k, h =>
    keys_loop_step_leaf b pre sf (.leaf kd) rest secrets k rfl
      (keys_resolveSecretNamesLoop b rest pre) h
  | .cons sf .nilPtr rest, pre, secrets, k, h =>
    keys_loop_step_leaf b pre sf .nilPtr rest secrets k rfl
      (keys_resolveSecretNamesLoop b rest pre) h
  | .cons sf (.ptr (.leaf kd)) rest, pre, secrets, k, h =>
    keys_loop_step_leaf b pre sf (.ptr (.leaf kd)) rest secrets k rfl
      (keys_resolveSecretNamesLoop b rest pre) h
  | .cons sf (.ptr .nilPtr) rest, pre, secrets, k, h =>
    keys_loop_step_leaf b pre sf (.ptr .nilPtr) rest secrets k rfl
      (keys_resolveSecretNamesLoop b rest pre) h
  | .cons sf (.ptr (.ptr e)) rest, pre, secrets, k, h =>
    keys_loop_step_leaf b pre sf (.ptr (.ptr e)) rest secrets k rfl
      (keys_resolveSecretNamesLoop b rest pre) h
end

theorem annotatedLeavesOf_mem_rest (sf : StructField) (v : Value) (rest : Fields)
    (e : List String × String) (h : e ∈ annotatedLeavesOf rest) :
    e ∈ annotatedLeavesOf (.cons sf v rest) := by
  cases hv : v.structBelow with
  | none =>
    rw [annotatedLeavesOf_leaf sf v rest hv]
    split
    · exact h
    · exact List.mem_cons_of_mem _ h
  | some fs =>
    rw [annotatedLeavesOf_below sf v rest fs hv]
    exact List.mem_append_right _ h

theorem annotatedLeavesOf_mem_of_fieldAt : ∀ (fs : Fields) (i : Nat) (sf : StructField)
    (v : Value) (sub : Fields), fs.fieldAt [i] = some (sf, v) → v.structBelow = some sub →
    ∀ e ∈ annotatedLeavesOf sub, (sf.tagGet koanfTag :: e.1, e.2) ∈ annotatedLeavesOf fs
  | .nil, _, _, _, _, h, _ => by simp [Fields.fieldAt] at h
  | .cons sf0 v0 rest, 0, sf, v, sub, h, hv => by
    simp only [Fields.fieldAt, Option.some.injEq, Prod.mk.injEq] at h
    obtain ⟨h1, h2⟩ := h
    subst h1 h2
    intro e he
    rw [annotatedLeavesOf_below sf0 v0 rest sub hv]
    exact List.mem_append_left _ (List.mem_map.2 ⟨e, he, rfl⟩)
  | .cons sf0 v0 rest, i + 1, sf, v, sub, h, hv => by
    simp only [Fields.fieldAt] at h
    intro e he
    exact annotatedLeavesOf_mem_rest sf0 v0 rest _
      (annotatedLeavesOf_mem_of_fieldAt rest i sf v sub h hv e he)

/-- C10 (amended). A field of the root struct that is a struct, or a non-nil pointer
to a struct, and has no koanf tag is not skipped: it is walked with the empty string
as its path segment, so for every annotated leaf field nested under it the returned
map holds the key made of the empty segment and the chain of koanf tags below the
field, joined with ".". -/
theorem validateAndResolve_untagged_struct (fs : Fields) (i : Nat) (sf : StructField)
    (v : Value) (sub : Fields) (m : GoMap String)
    (hfield : fs.fieldAt [i] = some (sf, v)) (htag : GoMap.get sf.tag koanfTag = none)
    (hsub : v.structBelow = some sub)
    (hm : validateAndResolve (some (.ptr (.struct fs))) = .ok m) :
    ∀ e ∈ annotatedLeavesOf sub, Join ("" :: e.1) "." ∈ GoMap.keys m := by
  intro e he
  have htag' : sf.tagGet koanfTag = "" := by simp [StructField.tagGet, htag]
  have hmem := annotatedLeavesOf_mem_of_fieldAt fs i sf v sub hfield hsub e he
  rw [htag'] at hmem
  rw [validateAndResolve_ptr_struct] at hm
  cases hl : validateStructLoop fs with
  | error err => rw [hl] at hm; simp at hm
  | panic err => rw [hl] at hm; simp at hm
  | ok u =>
    rw [hl] at hm
    simp only [Result.ok.injEq] at hm
    rw [← hm]
    apply keys_resolveSecretNamesLoop false fs [] [] _ (Or.inr _)
    simp only [GoMap.keys, pathEntries, List.map_map, List.mem_map, Function.comp_apply]
    exact ⟨("" :: e.1, e.2), hmem, by simp⟩

theorem validateAndResolve_untagged_struct_witness :
    untaggedStructFields.fieldAt [0] =
      some ({ name := "Nested", typeName := "inner", exported := true, tag := [] },
        .struct (.cons (stringField "X" [("koanf", "x"), ("gcpsecret", "S")])
          (.leaf .String) .nil)) ∧
    validateAndResolve (some (.ptr (.struct untaggedStructFields))) = .ok [(".x", "S")] ∧
    ∀ e ∈ annotatedLeavesOf (.cons (stringField "X" [("koanf", "x"), ("gcpsecret", "S")])
          (.leaf .String) .nil),
      Join ("" :: e.1) "." ∈ GoMap.keys [(".x", "S")] :=
  ⟨by rfl, by rfl,
   validateAndResolve_untagged_struct untaggedStructFields 0 _ _ _ _ (by rfl) (by rfl)
    (by rfl) (by rfl)⟩

/-- C10, as stated, fails: the secret nested under a struct field without a koanf tag
is in the returned map, under the key ".x", and the map differs from the map of the
schema without the field. -/
theorem validateAndResolve_untagged_not_skipped :
    untaggedStructFields.fieldAt [0] =
      some ({ name := "Nested", typeName := "inner", exported := true, tag := [] },
        .struct (.cons (stringField "X" [("koanf", "x"), ("gcpsecret", "S")])
          (.leaf .String) .nil)) ∧
    validateAndResolve (some (.ptr (.struct untaggedStructFields))) = .ok [(".x", "S")] ∧
    validateAndResolve (some (.ptr (.struct (untaggedStructFields.removeAt [0])))) =
      .ok [] := by
  refine ⟨by rfl, by rfl, by rfl⟩

/-! ## Defaults -/

theorem GoMap.mem_keys_of_get {β : Type} (m : GoMap β) (k : String) (v : β)
    (h : GoMap.get m k = some v) : k ∈ GoMap.keys m := by
  induction m with
  | nil => simp [GoMap.get] at h
  | cons e rest ih =>
    obtain ⟨k0, v0⟩ := e
    by_cases hk : k0 = k
    · simp [GoMap.keys, hk]
    · simp only [GoMap.get, hk, if_false] at h
      simp only [GoMap.keys, List.map_cons, List.mem_cons]
      exact Or.inr (ih h)

theorem GoMap.keys_set_of_get {β : Type} (m : GoMap β) (k : String) (v w : β)
    (h : GoMap.get m k = some v) : GoMap.keys (GoMap.set m k w) = GoMap.keys m := by
  rw [GoMap.keys_set, if_pos (GoMap.mem_keys_of_get m k v h)]

/-- One visit of the loop of `parseDefaults`. -/
theorem parseDefaultsVisit_spec (env : ENV) (m : GoMap Any) (k0 : String) :
    GoMap.keys (parseDefaultsVisit env m k0) = GoMap.keys m ∧
    ∀ k, GoMap.get (parseDefaultsVisit env m k0) k =
      if k = k0 then (GoMap.get m k0).map (itemForEnv env) else GoMap.get m k := by
  unfold parseDefaultsVisit
  cases hg : GoMap.get m k0 with
  | none =>
    refine ⟨rfl, fun k => ?_⟩
    by_cases hk : k = k0
    · simp [hk, hg]
    · simp [hk]
  | some v =>
    cases v with
    | set s0 s1 s2 =>
      simp only [itemForEnv, Option.map_some']
      by_cases h1 : env = DEV
      · simp only [if_pos h1]
        refine ⟨GoMap.keys_set_of_get m k0 _ _ hg, fun k => ?_⟩
        by_cases hk : k = k0
        · simp [hk, GoMap.get_set_self]
        · simp [hk, GoMap.get_set_ne _ _ _ _ hk]
      · by_cases h2 : env = STAGING
        · simp only [if_neg h1, if_pos h2]
          refine ⟨GoMap.keys_set_of_get m k0 _ _ hg, fun k => ?_⟩
          by_cases hk : k = k0
          · simp [hk, GoMap.get_set_self]
          · simp [hk, GoMap.get_set_ne _ _ _ _ hk]
        · by_cases h3 : env = PROD
          · simp only [if_neg h1, if_neg h2, if_pos h3]
            refine ⟨GoMap.keys_set_of_get m k0 _ _ hg, fun k => ?_⟩
            by_cases hk : k = k0
            · simp [hk, GoMap.get_set_self]
            · simp [hk, GoMap.get_set_ne _ _ _ _ hk]
          · refine ⟨by simp only [if_neg h1, if_neg h2, if_neg h3], fun k => ?_⟩
            simp only [if_neg h1, if_neg h2, if_neg h3]
            by_cases hk : k = k0
            · simp [hk, hg]
            · simp [hk]
    | nil | str _ | bool _ | env _ | runtime _ | other _ _ =>
      refine ⟨rfl, fun k => ?_⟩
      by_cases hk : k = k0
      · simp [hk, hg, itemForEnv]
      · simp [hk]

/-- The loop of `parseDefaults` over entries with distinct keys. -/
theorem parseDefaults_foldl (env : ENV) : ∀ (l : GoMap Any) (acc : GoMap Any),
    (GoMap.keys l).Nodup →
    GoMap.keys (l.foldl (fun m kv => parseDefaultsVisit env m kv.1) acc) = GoMap.keys acc ∧
    ∀ k, GoMap.get (l.foldl (fun m kv => parseDefaultsVisit env m kv.1) acc) k =
      if k ∈ GoMap.keys l then (GoMap.get acc k).map (itemForEnv env) else GoMap.get acc k
  | [], acc, _ => by simp [GoMap.keys]
  | e :: rest, acc, hnd => by
    simp only [GoMap.keys, List.map_cons, List.nodup_cons] at hnd
    obtain ⟨hv1, hv2⟩ := parseDefaultsVisit_spec env acc e.1
    obtain ⟨ih1, ih2⟩ := parseDefaults_foldl env rest (parseDefaultsVisit env acc e.1) hnd.2
    simp only [List.foldl_cons]
    refine ⟨by rw [ih1, hv1], fun k => ?_⟩
    rw [ih2 k, hv2 k]
    by_cases hk : k = e.1
    · subst hk
      have : e.1 ∉ GoMap.keys rest := hnd.1
      simp [GoMap.keys] at this ⊢
      simp [this]
    · by_cases hr : k ∈ GoMap.keys rest
      · simp [GoMap.keys, hk] at hr ⊢
        simp [hr, hk]
      · simp [GoMap.keys, hk] at hr ⊢
        simp [hr, hk]

/-- C11. For every env of DEV, STAGING and PROD, every defaults map m and every order
in which the loop visits it, parseDefaults(env, m) has exactly the keys of m; a key
whose value is a Set of a, b, c maps to a for DEV, b for STAGING and c for PROD, and
a key whose value is not a Set keeps its value. -/
theorem parseDefaults_spec (ord : RangeOrder Any) (env : ENV) (m : GoMap Any)
    (henv : env = DEV ∨ env = STAGING ∨ env = PROD) (hm : (GoMap.keys m).Nodup) :
    (GoMap.keys (parseDefaults ord env m)).Perm (GoMap.keys m) ∧
    (GoMap.keys (parseDefaults ord env m)).Nodup ∧
    (∀ k a b c, GoMap.get m k = some (.set a b c) →
      GoMap.get (parseDefaults ord env m) k =
        some (if env = DEV then a else if env = STAGING then b else c)) ∧
    (∀ k v, GoMap.get m k = some v → (∀ a b c, v ≠ .set a b c) →
      GoMap.get (parseDefaults ord env m) k = some v) := by
  have hperm := (ord.perm m).map Prod.fst
  have hnd : (GoMap.keys (ord.run m)).Nodup := hperm.nodup_iff.2 hm
  obtain ⟨h1, h2⟩ := parseDefaults_foldl env (ord.run m) m hnd
  have hget : ∀ k v, GoMap.get m k = some v →
      GoMap.get (parseDefaults ord env m) k = some (itemForEnv env v) := by
    intro k v hk
    have hmem : k ∈ GoMap.keys (ord.run m) :=
      hperm.mem_iff.2 (GoMap.mem_keys_of_get m k v hk)
    simp only [parseDefaults]
    rw [h2 k, if_pos hmem, hk]
    rfl
  refine ⟨?_, ?_, ?_, ?_⟩
  · simp only [parseDefaults]
    rw [h1]
  · simp only [parseDefaults]
    rw [h1]
    exact hm
  · intro k a b c hk
    rw [hget k _ hk]
    rcases henv with h | h | h
    · simp [itemForEnv, h]
    · subst h
      have : ¬ STAGING = DEV := by decide
      simp [itemForEnv, this]
    · subst h
      have h1 : ¬ PROD = DEV := by decide
      have h2 : ¬ PROD = STAGING := by decide
      simp [itemForEnv, h1, h2]
  · intro k v hk hv
    rw [hget k v hk]
    cases v with
    | set a b c => exact absurd rfl (hv a b c)
    | nil | str _ | bool _ | env _ | runtime _ | other _ _ => rfl

theorem parseDefaults_spec_witness :
    (STAGING = DEV ∨ STAGING = STAGING ∨ STAGING = PROD) ∧
    (GoMap.keys testDefaults).Nodup ∧
    parseDefaults (RangeOrder.backwards Any) STAGING testDefaults =
      [("host", .str "global"), ("port", .str "8080")] ∧
    (GoMap.keys (parseDefaults (RangeOrder.backwards Any) STAGING testDefaults)).Perm
      (GoMap.keys testDefaults) ∧
    (GoMap.keys (parseDefaults (RangeOrder.backwards Any) STAGING testDefaults)).Nodup ∧
    (∀ k a b c, GoMap.get testDefaults k = some (.set a b c) →
      GoMap.get (parseDefaults (RangeOrder.backwards Any) STAGING testDefaults) k =
        some (if STAGING = DEV then a else if STAGING = STAGING then b else c)) ∧
    (∀ k v, GoMap.get testDefaults k = some v → (∀ a b c, v ≠ .set a b c) →
      GoMap.get (parseDefaults (RangeOrder.backwards Any) STAGING testDefaults) k = some v) :=
  ⟨Or.inr (Or.inl rfl), by decide, by decide,
   parseDefaults_spec (RangeOrder.backwards Any) STAGING testDefaults
    (Or.inr (Or.inl rfl)) (by decide)⟩


/-! ## Env and runtime -/

theorem Konfig.Get_Set (k : Konfig) (key key' : String) (v : Any) :
    (k.Set key v).Get key' = if key' = key then v else k.Get key' := by
  unfold Konfig.Get Konfig.Set
  by_cases h : key' = key
  · subst h
    simp [GoMap.get_set_self]
  · simp [h, GoMap.get_set_ne _ _ _ _ h]

theorem Konfig.projects_Set (k : Konfig) (key : String) (v : Any) :
    (k.Set key v).projects = k.projects := rfl

theorem Konfig.defaultRegion_Set (k : Konfig) (key : String) (v : Any) :
    (k.Set key v).defaultRegion = k.defaultRegion := rfl

theorem Konfig.Runtime_of_set (host : Host) (k : Konfig) (r : RUNTIME)
    (h : k.Get runtimeKey = .runtime r) : k.Runtime host = (r, k) := by
  simp [Konfig.Runtime, h]

theorem Konfig.Runtime_Get_runtime (host : Host) (k : Konfig) :
    (k.Runtime host).2.Get runtimeKey = .runtime (k.Runtime host).1 := by
  unfold Konfig.Runtime
  cases h : k.Get runtimeKey <;> simp [h, Konfig.Get_Set]

theorem Konfig.Runtime_Get_env (host : Host) (k : Konfig) :
    (k.Runtime host).2.Get envKey = k.Get envKey := by
  have hne : ¬ envKey = runtimeKey := by decide
  unfold Konfig.Runtime
  cases h : k.Get runtimeKey <;> simp [Konfig.Get_Set, hne]

theorem Konfig.Runtime_projects (host : Host) (k : Konfig) :
    (k.Runtime host).2.projects = k.projects := by
  unfold Konfig.Runtime
  cases h : k.Get runtimeKey <;> simp [Konfig.projects_Set]

theorem Konfig.Runtime_unchanged (host : Host) (k : Konfig) (r0 : RUNTIME)
    (h : k.Get runtimeKey = .runtime r0) : (k.Runtime host).2 = k := by
  rw [Konfig.Runtime_of_set host k r0 h]

/-- `initializeEnvAndRuntime` goes on from the state in which `Runtime()` leaves `k`. -/
theorem initializeEnvAndRuntime_after_Runtime (host : Host) (k : Konfig) :
    initializeEnvAndRuntime host k = initializeEnvAndRuntime host (k.Runtime host).2 := by
  have h := Konfig.Runtime_of_set host (k.Runtime host).2 (k.Runtime host).1
    (Konfig.Runtime_Get_runtime host k)
  unfold initializeEnvAndRuntime
  rw [h]

/-- The branches LOCAL, CI and TEST for a Konfig whose runtime key is set and whose
projects are strings. -/
theorem initializeEnvAndRuntime_of_set (host : Host) (k : Konfig) (r : RUNTIME)
    (p0 p1 p2 : String) (hr : k.Get runtimeKey = .runtime r)
    (hrt : r = LOCAL ∨ r = CI ∨ r = TEST)
    (hproj : k.projects = (.str p0, .str p1, .str p2)) :
    (initializeEnvAndRuntime host k).2 = .ok () ∧
    (initializeEnvAndRuntime host k).1.Get runtimeKey = .runtime r ∧
    (∀ e, k.Get envKey = .env e → (initializeEnvAndRuntime host k).1.Get envKey = .env e) ∧
    ((∀ e, k.Get envKey ≠ .env e) →
      (initializeEnvAndRuntime host k).1.Get envKey = .env DEV) := by
  have n1 : ¬ runtimeKey = envKey := by decide
  have n2 : ¬ runtimeKey = regionKey := by decide
  have n3 : ¬ runtimeKey = projectKey := by decide
  have n4 : ¬ envKey = regionKey := by decide
  have n5 : ¬ envKey = projectKey := by decide
  have c1 : ¬ LOCAL = CI := by decide
  have c2 : ¬ LOCAL = TEST := by decide
  have c3 : ¬ LOCAL = CLOUD := by decide
  unfold initializeEnvAndRuntime
  rw [Konfig.Runtime_of_set host k r hr]
  rcases hrt with h | h | h
  · subst h
    simp only [c1, c2, c3, or_self, if_false, if_true]
    cases he : k.Get envKey <;>
      simp [Konfig.Get_Set, Konfig.setProject, Konfig.projects_Set, projectFromEnv,
        assertString, hproj, he, hr, n1, n2, n3, n4, n5]
    all_goals
      (split_ifs <;> simp [Konfig.Get_Set, Konfig.setProject, Konfig.projects_Set,
        Konfig.defaultRegion_Set, assertString, hproj, hr, he, n1, n2, n3, n4, n5])
  · subst h
    simp only [true_or, if_true]
    cases he : k.Get envKey <;>
      simp [Konfig.Get_Set, Konfig.setProject, Konfig.projects_Set, projectFromEnv,
        assertString, hproj, he, hr, n1, n2, n3, n4, n5]
    all_goals
      (split_ifs <;> simp [Konfig.Get_Set, Konfig.setProject, Konfig.projects_Set,
        Konfig.defaultRegion_Set, assertString, hproj, hr, he, n1, n2, n3, n4, n5])
  · subst h
    simp only [or_true, if_true]
    cases he : k.Get envKey <;>
      simp [Konfig.Get_Set, Konfig.setProject, Konfig.projects_Set, projectFromEnv,
        assertString, hproj, he, hr, n1, n2, n3, n4, n5]
    all_goals
      (split_ifs <;> simp [Konfig.Get_Set, Konfig.setProject, Konfig.projects_Set,
        Konfig.defaultRegion_Set, assertString, hproj, hr, he, n1, n2, n3, n4, n5])


/-- C12 (amended). For every Konfig whose runtime, the value Runtime() returns (the
runtime key when it was set beforehand, the detected runtime otherwise), is LOCAL, CI
or TEST and whose three projects are strings, initializeEnvAndRuntime returns no
error, leaves the runtime key holding that runtime (unchanged when it was set
beforehand), and leaves the env key equal to the ENV value set beforehand; when no
env was set beforehand it sets env to DEV. -/
theorem initializeEnvAndRuntime_local_ci_test (host : Host) (k : Konfig) (r : RUNTIME)
    (p0 p1 p2 : String) (hr : (k.Runtime host).1 = r)
    (hrt : r = LOCAL ∨ r = CI ∨ r = TEST)
    (hproj : k.projects = (.str p0, .str p1, .str p2)) :
    (initializeEnvAndRuntime host k).2 = .ok () ∧
    (initializeEnvAndRuntime host k).1.Get runtimeKey = .runtime r ∧
    (∀ r0, k.Get runtimeKey = .runtime r0 →
      (initializeEnvAndRuntime host k).1.Get runtimeKey = k.Get runtimeKey) ∧
    (∀ e, k.Get envKey = .env e → (initializeEnvAndRuntime host k).1.Get envKey = .env e) ∧
    ((∀ e, k.Get envKey ≠ .env e) →
      (initializeEnvAndRuntime host k).1.Get envKey = .env DEV) := by
  have hset : (k.Runtime host).2.Get runtimeKey = .runtime r := by
    rw [Konfig.Runtime_Get_runtime, hr]
  have hp : (k.Runtime host).2.projects = (.str p0, .str p1, .str p2) := by
    rw [Konfig.Runtime_projects, hproj]
  obtain ⟨h1, h2, h3, h4⟩ :=
    initializeEnvAndRuntime_of_set host (k.Runtime host).2 r p0 p1 p2 hset hrt hp
  rw [← initializeEnvAndRuntime_after_Runtime] at h1 h2 h3 h4
  rw [Konfig.Runtime_Get_env] at h3 h4
  refine ⟨h1, h2, ?_, h3, h4⟩
  intro r0 h0
  rw [h2, h0]
  have := Konfig.Runtime_of_set host k r0 h0
  rw [this] at hr
  simp only at hr
  rw [hr]

theorem initializeEnvAndRuntime_local_ci_test_witness :
    (testEnvOverrideKonfig.Runtime testHost).1 = LOCAL ∧
    testEnvOverrideKonfig.projects =
      (.str "playground-mscno", .str "playground-mscno", .str "playground-mscno") ∧
    (initializeEnvAndRuntime testHost testEnvOverrideKonfig).1.Env = .ok PROD ∧
    ((initializeEnvAndRuntime testHost testEnvOverrideKonfig).1.Runtime testHost).1 = LOCAL ∧
    ((initializeEnvAndRuntime testHost testEnvOverrideKonfig).2 = .ok () ∧
      (initializeEnvAndRuntime testHost testEnvOverrideKonfig).1.Get runtimeKey =
        .runtime LOCAL ∧
      (∀ r0, testEnvOverrideKonfig.Get runtimeKey = .runtime r0 →
        (initializeEnvAndRuntime testHost testEnvOverrideKonfig).1.Get runtimeKey =
          testEnvOverrideKonfig.Get runtimeKey) ∧
      (∀ e, testEnvOverrideKonfig.Get envKey = .env e →
        (initializeEnvAndRuntime testHost testEnvOverrideKonfig).1.Get envKey = .env e) ∧
      ((∀ e, testEnvOverrideKonfig.Get envKey ≠ .env e) →
        (initializeEnvAndRuntime testHost testEnvOverrideKonfig).1.Get envKey = .env DEV)) :=
  ⟨by rfl, by rfl, by rfl, by rfl,
   initializeEnvAndRuntime_local_ci_test testHost testEnvOverrideKonfig LOCAL
    "playground-mscno" "playground-mscno" "playground-mscno" (by rfl)
    (Or.inl rfl) (by rfl)⟩

/-- C12, as stated, fails: for a Konfig with runtime LOCAL whose projects are not
strings, initializeEnvAndRuntime panics in `k.projects[1].(string)` and returns
nothing; and for a Konfig whose runtime was not set beforehand, Runtime() writes the
detected runtime to the runtime key. -/
theorem initializeEnvAndRuntime_panics :
    (nilProjectsKonfig.Runtime testHost).1 = LOCAL ∧
    (initializeEnvAndRuntime testHost nilProjectsKonfig).2 =
      .panic "interface conversion: interface {} is nil, not string" ∧
    ((NewKonfig testProjectSet "us-central1" []).Runtime testHost).1 = TEST ∧
    (NewKonfig testProjectSet "us-central1" []).Get runtimeKey = .nil ∧
    (initializeEnvAndRuntime testHost (NewKonfig testProjectSet "us-central1" [])).1.Get
      runtimeKey = .runtime TEST := by
  refine ⟨by rfl, by rfl, by rfl, by rfl, by rfl⟩

end Konfig
